import Mathlib

/-!
Shallow embedding of the `RmPool` connection-pool manager (`src/rmPool.ts`)
and the parts of `RmPoolConnection` (`src/rmPoolConnection.ts`) it drives.

The pool owns an ordered list of pooled connections.  Each operation of the
TypeScript class is translated to a pure function on an explicit pool state.
The external mapepire Session is modelled by an environment-chosen behavior
record attached to each connection (whether its liveness probe succeeds and
whether closing it throws).  The promise-chain mutex `attachQueue` serializes
`attach()` calls, so a sequence of attach calls is modelled by sequentially
applying the `_attach` body; the settled state of the queue promise is kept
explicitly to model the `result.catch(() => {})` recovery step.
-/

namespace RmPool

/-- Environment-determined behavior of the external mapepire session owned by
one pooled connection: whether the liveness probe (`VALUES 1` in
`RmPoolConnection.isHealthy`) succeeds, and whether `connection.close()`
throws inside `RmPoolConnection.retire`. -/
structure ConnBeh where
  healthy : Bool
  closeFails : Bool
  deriving Repr, DecidableEq

/-- One `RmPoolConnection`: stable id `poolIndex`, availability flag,
configured expiry (minutes, `none` = null), whether an expiry timer is
currently pending (`expiryTimerId !== null`), and the session behavior. -/
structure Conn where
  poolIndex : Nat
  available : Bool
  expiry : Option Int
  expiryTimerId : Bool
  beh : ConnBeh
  deriving Repr, DecidableEq

/-- The `RmPool` state: the `connections` array, the `nextConnectionId`
counter, and the configuration fields read by the modelled operations. -/
structure PoolState where
  connections : List Conn
  nextConnectionId : Nat
  maxSize : Nat
  incrementSize : Nat
  incrementExpiry : Option Int
  healthCheckOnAttach : Bool
  deriving Repr, DecidableEq

/-- Errors thrown by the modelled pool operations. -/
inductive PoolErr where
  /-- Error `Maximum number of connections (n) reached` thrown in the growth loop. -/
  | maxReached (n : Nat)
  /-- Error `RmPool: All connections failed health check after n attempts`. -/
  | healthCheckExhausted (attempts : Nat)
  /-- Error `RmPool: Failed to retire() Connection #idx` (session close threw). -/
  | retireFailed (poolIndex : Nat)
  /-- Error `RmPool: Failed to retireAll()`, wrapping the cause. -/
  | retireAllFailed (cause : PoolErr)
  /-- The borrowed connection's `execute` rejected inside `query`. -/
  | queryFailed
  /-- Error `RmPool: Unable to attach a connection` (dead code after the while
  loop; in the model it is the out-of-fuel marker of the loop). -/
  | unableToAttach
  deriving Repr, DecidableEq

/-- The predicate `setExpiryTimer` schedules by: `conn.expiry && conn.expiry > 0`;
`null` and `0` are falsy, non-positive values fail the comparison. -/
def timerFor : Option Int → Bool
  | some e => decide (0 < e)
  | none => false

/-- Effect of `RmPool.setExpiryTimer` on the connection: cancel any existing
timer, then set one iff the expiry is a positive duration. -/
def setExpiryTimerConn (c : Conn) : Conn :=
  { c with expiryTimerId := timerFor c.expiry }

/-- Effect of claiming a connection in the `_attach` scan:
`cancelExpiryTimer` followed by `setAvailable(false)`. -/
def claimConn (c : Conn) : Conn :=
  { c with available := false, expiryTimerId := false }

/-- Apply `f` to the pool entry (entries) with the given `poolIndex`; models
a mutation of the shared `RmPoolConnection` object as seen through the
`connections` array. -/
def updateConn (st : PoolState) (idx : Nat) (f : Conn → Conn) : PoolState :=
  { st with connections := st.connections.map fun c => if c.poolIndex = idx then f c else c }

/-- Remove the first element satisfying `p`; models
`connections.indexOf(connection)` followed by `splice(i, 1)`. -/
def removeFirst (p : Conn → Bool) : List Conn → List Conn
  | [] => []
  | c :: cs => if p c then cs else c :: removeFirst p cs

/-- Model of `RmPool.createConnection`: push a new connection, assign it
`++this.nextConnectionId`, set its expiry, start its timer, and mark it
available.  Session creation is modelled as succeeding; `beh` is the
environment-determined behavior of the new session. -/
def createConnection (beh : ConnBeh) (expiry : Option Int) (st : PoolState) :
    PoolState × Conn :=
  let idx := st.nextConnectionId + 1
  let conn : Conn :=
    { poolIndex := idx, available := true, expiry := expiry,
      expiryTimerId := timerFor expiry, beh := beh }
  ({ st with connections := st.connections ++ [conn], nextConnectionId := idx }, conn)

/-- Model of `RmPool.init`: create `initialConnections.size` connections sequentially,
each with the initial expiry.  The oracle `beh` gives the session behavior of
the connection that receives a given `poolIndex`. -/
def initPool (beh : Nat → ConnBeh) (expiry : Option Int) : Nat → PoolState → PoolState
  | 0, st => st
  | n + 1, st =>
      initPool beh expiry n (createConnection (beh (st.nextConnectionId + 1)) expiry st).1

/-- Model of `RmPool.detach`: `connection.detach()` sets the availability flag to
`true` (it cannot throw), then `setExpiryTimer(connection)` reschedules the
timer from the connection's own expiry value. -/
def detach (st : PoolState) (c : Conn) : PoolState :=
  updateConn st c.poolIndex fun x => setExpiryTimerConn { x with available := true }

/-- Model of `RmPool.retire`: cancel the expiry timer, then `connection.retire()`
(close the session).  Only if the close succeeds is the connection removed
from `connections` (the `indexOf`/`splice` sits after the `await` inside the
`try`); if the close throws, the wrapped error propagates and the connection
stays in the array with its timer cancelled. -/
def retire (st : PoolState) (c : Conn) : PoolState × Except PoolErr Unit :=
  let st1 := updateConn st c.poolIndex fun x => { x with expiryTimerId := false }
  if c.beh.closeFails then
    (st1, .error (.retireFailed c.poolIndex))
  else
    ({ st1 with
        connections := removeFirst (fun x => decide (x.poolIndex = c.poolIndex)) st1.connections },
     .ok ())

/-- Model of `RmPool.setExpired` (the expiry-timer callback): mark the connection
unavailable, then retire it, swallowing any retirement error (the `catch`
only logs). -/
def setExpired (st : PoolState) (c : Conn) : PoolState :=
  let st1 := updateConn st c.poolIndex fun x => { x with available := false }
  (retire st1 c).1

/-- Firing of a pending expiry timer: the callback scheduled by `setTimeout`
exists only for a connection whose timer is pending, and runs `setExpired` on
it. -/
def expireFire (st : PoolState) (idx : Nat) : PoolState :=
  match st.connections.find? (fun c => c.poolIndex == idx) with
  | some c => if c.expiryTimerId then setExpired st c else st
  | none => st

/-- The growth loop of `_attach`: up to `incrementConnections.size` new
connections, stopping early at `maxSize` (throwing `maxReached` if nothing
was created in this attach call, i.e. `increasedPoolSize` is still false). -/
def growLoop (beh : Nat → ConnBeh) : Nat → Bool → PoolState → PoolState × Bool × Except PoolErr Unit
  | 0, inc, st => (st, inc, .ok ())
  | n + 1, inc, st =>
    if st.maxSize ≤ st.connections.length then
      if inc then (st, inc, .ok ())
      else (st, inc, .error (.maxReached st.connections.length))
    else
      growLoop beh n true (createConnection (beh (st.nextConnectionId + 1)) st.incrementExpiry st).1

/-- The body of `RmPool._attach` (the whole `while (!validConnection)` loop),
with explicit fuel standing in for the loop's termination.  `retries` is
`healthCheckRetries`, `inc` is `increasedPoolSize`.  The scan takes the first
available connection, cancels its timer and marks it unavailable; with health
checking on, an unhealthy candidate is retired (which may itself throw) and
the scan restarts, throwing `healthCheckExhausted` once `maxSize` candidates
have failed; with no available connection the pool grows and the scan
restarts. -/
def attachLoop (beh : Nat → ConnBeh) : Nat → Nat → Bool → PoolState → PoolState × Except PoolErr Conn
  | 0, _, _, st => (st, .error .unableToAttach)
  | fuel + 1, retries, inc, st =>
    match st.connections.find? (fun c => c.available) with
    | some c =>
      let st1 := updateConn st c.poolIndex claimConn
      if st.healthCheckOnAttach then
        if c.beh.healthy then
          (st1, .ok (claimConn c))
        else
          let r := retire st1 (claimConn c)
          match r.2 with
          | .error e => (r.1, .error e)
          | .ok _ =>
            if st.maxSize ≤ retries + 1 then
              (r.1, .error (.healthCheckExhausted (retries + 1)))
            else
              attachLoop beh fuel (retries + 1) inc r.1
      else
        (st1, .ok (claimConn c))
    | none =>
      let g := growLoop beh st.incrementSize inc st
      match g.2.2 with
      | .error e => (g.1, .error e)
      | .ok _ => attachLoop beh fuel retries g.2.1 g.1

/-- Model of `RmPool._attach` as run by one serialized `attach()` call.  The loop of
`_attach` makes at most `2 * maxSize + 1` passes (each pass either returns,
throws, retires one failed candidate — at most `maxSize` of those — or grows
the pool after a pass that retired or claimed every available connection), so
this fuel is sufficient; running out of fuel yields the dead-code error
`RmPool: Unable to attach a connection`. -/
def attach (beh : Nat → ConnBeh) (st : PoolState) : PoolState × Except PoolErr Conn :=
  attachLoop beh (2 * st.maxSize + 2) 0 false st

/-- The `while (this.connections.length > 0) await this.retire(this.connections[0])`
loop of `retireAll`, with fuel: each successful retirement removes the head,
and the first failed retirement aborts the loop. -/
def retireAllLoop : Nat → PoolState → PoolState × Except PoolErr Unit
  | 0, st => (st, .ok ())
  | f + 1, st =>
    match st.connections with
    | [] => (st, .ok ())
    | c :: _ =>
      let r := retire st c
      match r.2 with
      | .error e => (r.1, .error (.retireAllFailed e))
      | .ok _ => retireAllLoop f r.1

/-- Model of `RmPool.retireAll`: repeatedly retire the first connection; a retirement
failure is wrapped as `RmPool: Failed to retireAll()` and ends the loop. -/
def retireAll (st : PoolState) : PoolState × Except PoolErr Unit :=
  retireAllLoop st.connections.length st

/-- Model of `RmPool.query`: attach, execute (the execution outcome `execFails` is
environment-determined and does not alter pool bookkeeping), and detach in a
`finally`, so the borrowed connection is released on both paths. -/
def query (beh : Nat → ConnBeh) (execFails : Bool) (st : PoolState) :
    PoolState × Except PoolErr Unit :=
  let a := attach beh st
  match a.2 with
  | .error e => (a.1, .error e)
  | .ok c =>
    let st2 := detach a.1 c
    if execFails then (st2, .error .queryFailed) else (st2, .ok ())

/-- Pool state together with the settled state of the `attachQueue` promise
(`.ok ()` = fulfilled, `.error e` = rejected). -/
structure QueueState where
  pool : PoolState
  queue : Except PoolErr Unit

/-- A fresh pool's queue: `this.attachQueue = Promise.resolve()`. -/
def mkQueueState (st : PoolState) : QueueState :=
  ⟨st, .ok ()⟩

/-- One `attach()` call through the promise-chain mutex:
`result = attachQueue.then(() => this._attach())` — if the queue promise is
rejected, `_attach` does not run and the rejection is what the caller gets —
and `attachQueue = result.catch(() => {})`, so the stored queue promise is
fulfilled either way. -/
def attachQueued (beh : Nat → ConnBeh) (qs : QueueState) : QueueState × Except PoolErr Conn :=
  match qs.queue with
  | .error e => ({ qs with queue := .ok () }, .error e)
  | .ok _ =>
    let a := attach beh qs.pool
    ({ pool := a.1, queue := .ok () }, a.2)

/-- The pool operations a client can drive, for reachable-state reasoning.
Oracles of type `Nat → ConnBeh` fix the session behavior of connections
created during the operation, keyed by the `poolIndex` they receive. -/
inductive PoolOp where
  | opCreate (beh : ConnBeh) (expiry : Option Int)
  | opInit (beh : Nat → ConnBeh) (count : Nat) (expiry : Option Int)
  | opAttach (beh : Nat → ConnBeh)
  | opDetach (idx : Nat)
  | opRetire (idx : Nat)
  | opRetireAll
  | opQuery (beh : Nat → ConnBeh) (execFails : Bool)
  | opExpire (idx : Nat)

/-- Apply one operation, keeping the state and discarding the result;
`opDetach`/`opRetire` act on the pooled connection with the given id (no-op
if it is not pooled, since the caller then holds no handle to pass). -/
def applyOp (st : PoolState) : PoolOp → PoolState
  | .opCreate beh expiry => (createConnection beh expiry st).1
  | .opInit beh count expiry => initPool beh expiry count st
  | .opAttach beh => (attach beh st).1
  | .opDetach idx =>
    match st.connections.find? (fun c => c.poolIndex == idx) with
    | some c => detach st c
    | none => st
  | .opRetire idx =>
    match st.connections.find? (fun c => c.poolIndex == idx) with
    | some c => (retire st c).1
    | none => st
  | .opRetireAll => (retireAll st).1
  | .opQuery beh execFails => (query beh execFails st).1
  | .opExpire idx => expireFire st idx

/-- Run a sequence of pool operations. -/
def runOps (st : PoolState) : List PoolOp → PoolState
  | [] => st
  | op :: ops => runOps (applyOp st op) ops

/-- The ids currently pooled. -/
def ids (st : PoolState) : List Nat :=
  st.connections.map Conn.poolIndex

/-- Pooled ids are pairwise distinct. -/
def UniqueIds (st : PoolState) : Prop :=
  (ids st).Nodup

/-- Every pooled id is at most the value of the `nextConnectionId` counter. -/
def IdsBounded (st : PoolState) : Prop :=
  ∀ c ∈ st.connections, c.poolIndex ≤ st.nextConnectionId

/-- Every claimed connection has no pending expiry timer. -/
def ClaimedNoTimer (st : PoolState) : Prop :=
  ∀ c ∈ st.connections, c.available = false → c.expiryTimerId = false

/-! ### List-level helper lemmas -/

theorem removeFirst_sublist (p : Conn → Bool) (l : List Conn) :
    List.Sublist (removeFirst p l) l := by
  induction l with
  | nil => simp [removeFirst]
  | cons c cs ih =>
    cases hpc : p c with
    | true => simp [removeFirst, hpc, List.sublist_cons_self]
    | false => simpa [removeFirst, hpc] using ih.cons₂ c

theorem mem_removeFirst_of_not (p : Conn → Bool) {l : List Conn} {a : Conn}
    (ha : a ∈ l) (hpa : p a = false) : a ∈ removeFirst p l := by
  induction l with
  | nil => simp at ha
  | cons c cs ih =>
    cases hpc : p c with
    | true =>
      rcases List.mem_cons.1 ha with rfl | h'
      · rw [hpc] at hpa; cases hpa
      · simp [removeFirst, hpc, h']
    | false =>
      rcases List.mem_cons.1 ha with rfl | h'
      · simp [removeFirst, hpc]
      · simp [removeFirst, hpc, ih h']

theorem length_removeFirst_lt (p : Conn → Bool) {l : List Conn} {a : Conn}
    (ha : a ∈ l) (hpa : p a = true) : (removeFirst p l).length < l.length := by
  induction l with
  | nil => simp at ha
  | cons c cs ih =>
    cases hpc : p c with
    | true => simp [removeFirst, hpc]
    | false =>
      rcases List.mem_cons.1 ha with rfl | h'
      · rw [hpc] at hpa; cases hpa
      · simpa [removeFirst, hpc] using ih h'

theorem not_mem_ids_removeFirst {l : List Conn} {i : Nat}
    (hnd : (l.map Conn.poolIndex).Nodup) :
    i ∉ (removeFirst (fun x => decide (x.poolIndex = i)) l).map Conn.poolIndex := by
  induction l with
  | nil => simp [removeFirst]
  | cons c cs ih =>
    simp only [List.map_cons, List.nodup_cons, List.mem_map] at hnd
    by_cases h : c.poolIndex = i
    · have : (fun x => decide (x.poolIndex = i)) c = true := by simp [h]
      simp only [removeFirst, this, if_true, List.mem_map]
      rintro ⟨x, hx, hxi⟩
      rw [← h] at hxi
      exact hnd.1 ⟨x, hx, hxi⟩
    · have : (fun x => decide (x.poolIndex = i)) c = false := by simp [h]
      simp only [removeFirst, this, Bool.false_eq_true, if_false, List.map_cons, List.mem_cons]
      rintro (hci | hmem)
      · exact h hci.symm
      · exact ih hnd.2 hmem

theorem mem_map_update_of_ne {l : List Conn} {i : Nat} {f : Conn → Conn} {p : Conn}
    (hp : p ∈ l) (hne : p.poolIndex ≠ i) :
    p ∈ l.map fun c => if c.poolIndex = i then f c else c := by
  exact List.mem_map.2 ⟨p, hp, by simp [hne]⟩

theorem ids_map_update {l : List Conn} {i : Nat} {f : Conn → Conn}
    (hf : ∀ c, (f c).poolIndex = c.poolIndex) :
    (l.map fun c => if c.poolIndex = i then f c else c).map Conn.poolIndex
      = l.map Conn.poolIndex := by
  rw [List.map_map]
  refine List.map_congr_left ?_
  intro c _
  by_cases h : c.poolIndex = i <;> simp [h, hf]

theorem nodup_ids_inj {st : PoolState} (hnd : UniqueIds st) {a b : Conn}
    (ha : a ∈ st.connections) (hb : b ∈ st.connections)
    (hab : a.poolIndex = b.poolIndex) : a = b :=
  List.inj_on_of_nodup_map hnd ha hb hab

/-! ### Facts about the growth loop -/

/-- Everything the growth loop of `_attach` does: it appends a (duplicate-free)
tail of fresh, available connections carrying the increment expiry, is
monotone in the id counter, keeps the configuration, respects `maxSize`, and
errors (with `maxReached`, leaving the state unchanged) only when nothing was
created in this attach call. -/
theorem growLoop_facts (beh : Nat → ConnBeh) (n : Nat) (inc : Bool) (st : PoolState)
    {st' : PoolState} {inc' : Bool} {r : Except PoolErr Unit}
    (h : growLoop beh n inc st = (st', inc', r)) :
    ∃ tail,
      st'.connections = st.connections ++ tail ∧
      (∀ c ∈ tail, c.available = true ∧ c.expiryTimerId = timerFor st.incrementExpiry ∧
        st.nextConnectionId < c.poolIndex ∧ c.poolIndex ≤ st'.nextConnectionId ∧
        c.beh = beh c.poolIndex) ∧
      (tail.map Conn.poolIndex).Nodup ∧
      st.nextConnectionId ≤ st'.nextConnectionId ∧
      st'.maxSize = st.maxSize ∧ st'.incrementSize = st.incrementSize ∧
      st'.incrementExpiry = st.incrementExpiry ∧
      st'.healthCheckOnAttach = st.healthCheckOnAttach ∧
      (st.connections.length ≤ st.maxSize → st'.connections.length ≤ st.maxSize) ∧
      (∀ e, r = .error e → st' = st ∧ inc = false ∧ ∃ m, e = .maxReached m) ∧
      (r = .ok () → inc = false → 1 ≤ n → st.connections.length < st.maxSize) ∧
      (r = .ok () → 1 ≤ n → st.connections.length < st.maxSize → tail ≠ []) := by
  induction n generalizing inc st st' inc' r with
  | zero =>
    simp only [growLoop, Prod.mk.injEq] at h
    obtain ⟨rfl, rfl, rfl⟩ := h
    refine ⟨[], by simp, by simp, by simp, le_rfl, rfl, rfl, rfl, rfl, fun h => h, ?_, ?_, ?_⟩
    · rintro e ⟨⟩
    · omega
    · omega
  | succ n ih =>
    simp only [growLoop] at h
    by_cases hge : st.maxSize ≤ st.connections.length
    · rw [if_pos hge] at h
      cases inc with
      | true =>
        rw [if_pos rfl] at h
        simp only [Prod.mk.injEq] at h
        obtain ⟨rfl, rfl, rfl⟩ := h
        refine ⟨[], by simp, by simp, by simp, le_rfl, rfl, rfl, rfl, rfl, fun h => h, ?_, ?_, ?_⟩
        · rintro e ⟨⟩
        · intro _ hfalse; cases hfalse
        · intro _ _ hlt; omega
      | false =>
        rw [if_neg (by simp)] at h
        simp only [Prod.mk.injEq] at h
        obtain ⟨rfl, rfl, rfl⟩ := h
        refine ⟨[], by simp, by simp, by simp, le_rfl, rfl, rfl, rfl, rfl, fun h => h, ?_, ?_, ?_⟩
        · rintro e he
          injection he with he
          exact ⟨rfl, rfl, _, he.symm⟩
        · rintro ⟨⟩
        · rintro ⟨⟩
    · rw [if_neg hge] at h
      obtain ⟨tail₁, hconn, htail, hnd₁, hmono, hmax, hincs, hexp, hhc, hsize, herr, -, -⟩ :=
        ih true _ h
      simp only [createConnection] at hconn htail hnd₁ hmono hmax hincs hexp hhc hsize herr
      refine ⟨(⟨st.nextConnectionId + 1, true, st.incrementExpiry,
          timerFor st.incrementExpiry, beh (st.nextConnectionId + 1)⟩ : Conn) :: tail₁,
          ?_, ?_, ?_, ?_, ?_, ?_, ?_, ?_, ?_, ?_, ?_, ?_⟩
      · rw [hconn]; simp
      · intro c hc
        rcases List.mem_cons.1 hc with rfl | hc₁
        · exact ⟨rfl, rfl, Nat.lt_succ_self _, hmono, rfl⟩
        · obtain ⟨h1, h2, h3, h4, h5⟩ := htail c hc₁
          exact ⟨h1, h2, by omega, h4, h5⟩
      · simp only [List.map_cons, List.nodup_cons, List.mem_map]
        refine ⟨?_, hnd₁⟩
        rintro ⟨x, hx, hxi⟩
        have h3 := (htail x hx).2.2.1
        omega
      · omega
      · exact hmax
      · exact hincs
      · exact hexp
      · exact hhc
      · intro hl
        exact hsize (by simp; omega)
      · rintro e he
        rcases herr e he with ⟨-, hft, -⟩
        cases hft
      · intro _ _ _; omega
      · intro _ _ _; simp

/-! ### Facts about claiming and retiring a scanned connection -/

/-- Cancelling the expiry timer of an already-claimed entry is a no-op. -/
theorem map_claim_cancel (l : List Conn) (i : Nat) :
    ((l.map fun x => if x.poolIndex = i then claimConn x else x).map
        fun x => if x.poolIndex = i then { x with expiryTimerId := false } else x)
      = l.map fun x => if x.poolIndex = i then claimConn x else x := by
  rw [List.map_map]
  refine List.map_congr_left ?_
  intro x _
  by_cases h : x.poolIndex = i
  · simp [h, claimConn]
  · simp [h]

/-- The pool state after the claimed connection with id `i` has additionally
been removed (the successful-retire outcome inside the health-check branch). -/
def claimedRemoved (st : PoolState) (i : Nat) : PoolState :=
  { updateConn st i claimConn with
      connections := (removeFirst (fun x => decide (x.poolIndex = i))
        (st.connections.map fun x => if x.poolIndex = i then claimConn x else x)) }

/-- Running `retire` on the just-claimed connection, when its session close succeeds:
the claimed entry is removed and nothing else changes. -/
theorem retire_after_claim_eq (st : PoolState) (c : Conn) (hcf : c.beh.closeFails = false) :
    retire (updateConn st c.poolIndex claimConn) (claimConn c)
      = (claimedRemoved st c.poolIndex, .ok ()) := by
  have hpi : (claimConn c).poolIndex = c.poolIndex := rfl
  have hcf' : (claimConn c).beh.closeFails = false := hcf
  simp only [retire, updateConn, claimedRemoved, hpi, hcf', Bool.false_eq_true, if_false,
    Prod.mk.injEq, PoolState.mk.injEq, and_true]
  rw [map_claim_cancel]

/-- Running `retire` on the just-claimed connection, when its session close throws:
the error propagates and the pool state is unchanged from the claim (the
timer of the claimed entry is already cancelled). -/
theorem retire_after_claim_err_eq (st : PoolState) (c : Conn) (hcf : c.beh.closeFails = true) :
    retire (updateConn st c.poolIndex claimConn) (claimConn c)
      = (updateConn st c.poolIndex claimConn, .error (.retireFailed c.poolIndex)) := by
  have hpi : (claimConn c).poolIndex = c.poolIndex := rfl
  have hcf' : (claimConn c).beh.closeFails = true := hcf
  simp only [retire, updateConn, hpi, hcf', if_true, Prod.mk.injEq, PoolState.mk.injEq, and_true]
  rw [map_claim_cancel]

/-- Facts about the state after the scan claims the first available
connection (cancel timer + mark unavailable), before any health check. -/
theorem claim_only_facts (st : PoolState) (c : Conn) (hnd : UniqueIds st)
    (hmem : c ∈ st.connections) (hav : c.available = true) :
    ids (updateConn st c.poolIndex claimConn) = ids st ∧
    claimConn c ∈ (updateConn st c.poolIndex claimConn).connections ∧
    (∀ p ∈ st.connections, p.available = false →
      p ∈ (updateConn st c.poolIndex claimConn).connections) ∧
    (∀ q ∈ (updateConn st c.poolIndex claimConn).connections,
      ∃ p ∈ st.connections, p.poolIndex = q.poolIndex ∧ p.beh = q.beh ∧
        (q.available = true → p.available = true)) ∧
    (ClaimedNoTimer st → ClaimedNoTimer (updateConn st c.poolIndex claimConn)) ∧
    (updateConn st c.poolIndex claimConn).connections.length = st.connections.length := by
  refine ⟨ids_map_update (fun _ => rfl), ?_, ?_, ?_, ?_, by simp [updateConn]⟩
  · exact List.mem_map.2 ⟨c, hmem, by simp [claimConn]⟩
  · intro p hp hpav
    have hne : p.poolIndex ≠ c.poolIndex := by
      intro he
      have := nodup_ids_inj hnd hp hmem he
      rw [this, hav] at hpav
      cases hpav
    exact mem_map_update_of_ne hp hne
  · intro q hq
    obtain ⟨p, hp, hpq⟩ := List.mem_map.1 hq
    by_cases h : p.poolIndex = c.poolIndex
    · rw [if_pos h] at hpq
      refine ⟨p, hp, ?_, ?_, ?_⟩
      · rw [← hpq]; rfl
      · rw [← hpq]; rfl
      · rw [← hpq]
        intro hfalse
        cases hfalse
    · rw [if_neg h] at hpq
      exact ⟨p, hp, by rw [hpq], by rw [hpq], by rw [hpq]; exact fun h => h⟩
  · intro hcnt q hq hqav
    obtain ⟨p, hp, hpq⟩ := List.mem_map.1 hq
    by_cases h : p.poolIndex = c.poolIndex
    · rw [if_pos h] at hpq
      rw [← hpq]; rfl
    · rw [if_neg h] at hpq
      exact hcnt q (hpq ▸ hp) hqav

/-- Facts about the state after the scan claims the first available
connection, its health probe fails, and it is successfully retired. -/
theorem claim_retire_facts (st : PoolState) (c : Conn) (hnd : UniqueIds st)
    (hbd : IdsBounded st) (hmem : c ∈ st.connections) (hav : c.available = true)
    (hcf : c.beh.closeFails = false) {st2 : PoolState} {u : Except PoolErr Unit}
    (h : retire (updateConn st c.poolIndex claimConn) (claimConn c) = (st2, u)) :
    u = .ok () ∧
    UniqueIds st2 ∧ IdsBounded st2 ∧
    st2.nextConnectionId = st.nextConnectionId ∧ st2.maxSize = st.maxSize ∧
    st2.incrementSize = st.incrementSize ∧ st2.incrementExpiry = st.incrementExpiry ∧
    st2.healthCheckOnAttach = st.healthCheckOnAttach ∧
    st2.connections.length < st.connections.length ∧
    c.poolIndex ∉ ids st2 ∧
    (∀ p ∈ st.connections, p.available = false → p ∈ st2.connections) ∧
    (∀ q ∈ st2.connections, ∃ p ∈ st.connections, p.poolIndex = q.poolIndex ∧ p.beh = q.beh ∧
      (q.available = true → p.available = true)) ∧
    (∀ q ∈ st.connections, q.poolIndex ∉ ids st2 → q.poolIndex = c.poolIndex) ∧
    (ClaimedNoTimer st → ClaimedNoTimer st2) := by
  rw [retire_after_claim_eq st c hcf] at h
  injection h with h1 h2
  subst h1
  subst h2
  have hidsmap :
      ((st.connections.map fun x => if x.poolIndex = c.poolIndex then claimConn x else x).map
        Conn.poolIndex) = ids st := ids_map_update (fun _ => rfl)
  have hndmap :
      (((st.connections.map fun x => if x.poolIndex = c.poolIndex then claimConn x else x).map
        Conn.poolIndex)).Nodup := by
    rw [hidsmap]; exact hnd
  have hsub := removeFirst_sublist (fun x => decide (x.poolIndex = c.poolIndex))
      (st.connections.map fun x => if x.poolIndex = c.poolIndex then claimConn x else x)
  have hmemmap : ∀ q, q ∈ removeFirst (fun x => decide (x.poolIndex = c.poolIndex))
      (st.connections.map fun x => if x.poolIndex = c.poolIndex then claimConn x else x) →
      ∃ p ∈ st.connections, p.poolIndex = q.poolIndex ∧ p.beh = q.beh ∧
        (q.available = true → p.available = true) := by
    intro q hq
    have hq' := hsub.subset hq
    obtain ⟨p, hp, hpq⟩ := List.mem_map.1 hq'
    by_cases hpi : p.poolIndex = c.poolIndex
    · rw [if_pos hpi] at hpq
      refine ⟨p, hp, ?_, ?_, ?_⟩
      · rw [← hpq]; rfl
      · rw [← hpq]; rfl
      · rw [← hpq]; intro hfalse; cases hfalse
    · rw [if_neg hpi] at hpq
      exact ⟨p, hp, by rw [hpq], by rw [hpq], by rw [hpq]; exact fun h => h⟩
  refine ⟨rfl, ?_, ?_, rfl, rfl, rfl, rfl, rfl, ?_, ?_, ?_, hmemmap, ?_, ?_⟩
  · show ((removeFirst _ _).map Conn.poolIndex).Nodup
    exact hndmap.sublist (hsub.map Conn.poolIndex)
  · intro q hq
    obtain ⟨p, hp, hpeq, -, -⟩ := hmemmap q hq
    show q.poolIndex ≤ st.nextConnectionId
    rw [← hpeq]
    exact hbd p hp
  · show (removeFirst _ _).length < st.connections.length
    have hcmem : claimConn c ∈
        (st.connections.map fun x => if x.poolIndex = c.poolIndex then claimConn x else x) :=
      List.mem_map.2 ⟨c, hmem, by simp [claimConn]⟩
    have := length_removeFirst_lt (fun x => decide (x.poolIndex = c.poolIndex))
      hcmem (by simp [claimConn])
    simpa using this
  · show c.poolIndex ∉ (removeFirst _ _).map Conn.poolIndex
    exact not_mem_ids_removeFirst hndmap
  · intro p hp hpav
    have hne : p.poolIndex ≠ c.poolIndex := by
      intro he
      have := nodup_ids_inj hnd hp hmem he
      rw [this, hav] at hpav
      cases hpav
    exact mem_removeFirst_of_not _ (mem_map_update_of_ne hp hne) (by simp [hne])
  · intro q hq hqn
    by_contra hne
    apply hqn
    have hmemq : q ∈ removeFirst (fun x => decide (x.poolIndex = c.poolIndex))
        (st.connections.map fun x => if x.poolIndex = c.poolIndex then claimConn x else x) :=
      mem_removeFirst_of_not _ (mem_map_update_of_ne hq hne) (by simp [hne])
    exact List.mem_map.2 ⟨q, hmemq, rfl⟩
  · intro hcnt q hq hqav
    have hq' := hsub.subset hq
    obtain ⟨p, hp, hpq⟩ := List.mem_map.1 hq'
    by_cases hpi : p.poolIndex = c.poolIndex
    · rw [if_pos hpi] at hpq
      rw [← hpq]; rfl
    · rw [if_neg hpi] at hpq
      exact hcnt q (hpq ▸ hp) hqav

/-! ### The specification of one serialized `_attach` run -/

/-- Everything one `_attach` run (starting with `healthCheckRetries = retries`)
guarantees, relating the input state `st` to the output state `st'` and the
result `r`. -/
structure AttachFacts (beh : Nat → ConnBeh) (st : PoolState) (retries : Nat)
    (st' : PoolState) (r : Except PoolErr Conn) : Prop where
  nodup : UniqueIds st'
  bounded : IdsBounded st'
  nidMono : st.nextConnectionId ≤ st'.nextConnectionId
  cfgMax : st'.maxSize = st.maxSize
  cfgHc : st'.healthCheckOnAttach = st.healthCheckOnAttach
  sizeLe : st.connections.length ≤ st.maxSize → st'.connections.length ≤ st.maxSize
  unavailKept : ∀ p ∈ st.connections, p.available = false → p ∈ st'.connections
  behKept : ∀ q ∈ st'.connections,
    (∃ p ∈ st.connections, p.poolIndex = q.poolIndex ∧ p.beh = q.beh ∧
      (q.available = true → p.available = true)) ∨
    (st.nextConnectionId < q.poolIndex ∧ q.beh = beh q.poolIndex)
  removedUnhealthy : ∀ q ∈ st.connections, q.poolIndex ∉ ids st' → q.beh.healthy = false
  okClaimed : ∀ c, r = .ok c → c.available = false ∧ c.expiryTimerId = false ∧
    c ∈ st'.connections ∧ (st.healthCheckOnAttach = true → c.beh.healthy = true)
  okSource : ∀ c, r = .ok c →
    (∃ q ∈ st.connections, q.poolIndex = c.poolIndex ∧ q.available = true) ∨
    st.nextConnectionId < c.poolIndex
  errShape : ∀ e, r = .error e → (∃ m, e = .maxReached m) ∨
    (∃ m, e = .healthCheckExhausted m) ∨ (∃ m, e = .retireFailed m) ∨ e = .unableToAttach
  exhaustedCeiling : retries < st.maxSize →
    ∀ m, r = .error (.healthCheckExhausted m) → m = st.maxSize
  noCloseFailErr : (∀ p ∈ st.connections, p.beh.closeFails = false) →
    (∀ n, (beh n).closeFails = false) → ∀ m, r ≠ .error (.retireFailed m)
  cntKept : ClaimedNoTimer st → ClaimedNoTimer st'

/-- Facts when `_attach` ends in an error that leaves the state untouched. -/
theorem attachFacts_of_err (beh : Nat → ConnBeh) (st : PoolState) (retries : Nat)
    (e : PoolErr) (hnd : UniqueIds st) (hbd : IdsBounded st)
    (hshape : (∃ m, e = .maxReached m) ∨ e = .unableToAttach) :
    AttachFacts beh st retries st (.error e) where
  nodup := hnd
  bounded := hbd
  nidMono := le_rfl
  cfgMax := rfl
  cfgHc := rfl
  sizeLe := fun h => h
  unavailKept := fun p hp _ => hp
  behKept := fun q hq => .inl ⟨q, hq, rfl, rfl, fun h => h⟩
  removedUnhealthy := fun q hq hqn => absurd (List.mem_map.2 ⟨q, hq, rfl⟩) hqn
  okClaimed := fun _ hc => nomatch hc
  okSource := fun _ hc => nomatch hc
  errShape := by
    rintro e' he'
    injection he' with he'
    subst he'
    rcases hshape with ⟨m, rfl⟩ | rfl
    · exact .inl ⟨m, rfl⟩
    · exact .inr (.inr (.inr rfl))
  exhaustedCeiling := by
    rintro - m hm
    injection hm with hm
    rcases hshape with ⟨k, rfl⟩ | rfl <;> cases hm
  noCloseFailErr := by
    rintro - - m hm
    injection hm with hm
    rcases hshape with ⟨k, rfl⟩ | rfl <;> cases hm
  cntKept := fun h => h

/-- Facts when the scan finds an available connection and hands it out
(health check passed or disabled). -/
theorem attachFacts_claimOk (beh : Nat → ConnBeh) (st : PoolState) (retries : Nat)
    (c : Conn) (hnd : UniqueIds st) (hbd : IdsBounded st)
    (hmem : c ∈ st.connections) (hav : c.available = true)
    (hok : st.healthCheckOnAttach = true → c.beh.healthy = true) :
    AttachFacts beh st retries (updateConn st c.poolIndex claimConn) (.ok (claimConn c)) := by
  obtain ⟨hids, hcmem, hunav, hprov, hcnt, hlen⟩ := claim_only_facts st c hnd hmem hav
  refine ⟨?_, ?_, ?_, rfl, rfl, ?_, hunav, ?_, ?_, ?_, ?_, ?_, ?_, ?_, hcnt⟩
  · show (ids _).Nodup
    rw [hids]; exact hnd
  · intro q hq
    obtain ⟨p, hp, hpeq, -, -⟩ := hprov q hq
    show q.poolIndex ≤ st.nextConnectionId
    rw [← hpeq]; exact hbd p hp
  · exact le_rfl
  · intro h; rw [hlen]; exact h
  · intro q hq
    exact .inl (hprov q hq)
  · intro q hq hqn
    exact absurd (hids ▸ List.mem_map.2 ⟨q, hq, rfl⟩) hqn
  · rintro c' hc'
    injection hc' with hc'
    subst hc'
    exact ⟨rfl, rfl, hcmem, hok⟩
  · rintro c' hc'
    injection hc' with hc'
    subst hc'
    exact .inl ⟨c, hmem, rfl, hav⟩
  · rintro e he; cases he
  · rintro - m hm; cases hm
  · rintro - - m hm; cases hm

/-- Facts when the claimed connection fails its probe and its retirement
itself throws (session close failure): the error propagates, the state keeps
the claimed entry. -/
theorem attachFacts_retireErr (beh : Nat → ConnBeh) (st : PoolState) (retries : Nat)
    (c : Conn) (hnd : UniqueIds st) (hbd : IdsBounded st)
    (hmem : c ∈ st.connections) (hav : c.available = true)
    (hcf : c.beh.closeFails = true) :
    AttachFacts beh st retries (updateConn st c.poolIndex claimConn)
      (.error (.retireFailed c.poolIndex)) := by
  obtain ⟨hids, hcmem, hunav, hprov, hcnt, hlen⟩ := claim_only_facts st c hnd hmem hav
  refine ⟨?_, ?_, ?_, rfl, rfl, ?_, hunav, ?_, ?_, ?_, ?_, ?_, ?_, ?_, hcnt⟩
  · show (ids _).Nodup
    rw [hids]; exact hnd
  · intro q hq
    obtain ⟨p, hp, hpeq, -, -⟩ := hprov q hq
    show q.poolIndex ≤ st.nextConnectionId
    rw [← hpeq]; exact hbd p hp
  · exact le_rfl
  · intro h; rw [hlen]; exact h
  · intro q hq
    exact .inl (hprov q hq)
  · intro q hq hqn
    exact absurd (hids ▸ List.mem_map.2 ⟨q, hq, rfl⟩) hqn
  · rintro c' hc'; cases hc'
  · rintro c' hc'; cases hc'
  · rintro e he
    injection he with he
    subst he
    exact .inr (.inr (.inl ⟨c.poolIndex, rfl⟩))
  · rintro - m hm
    injection hm with hm
    cases hm
  · rintro hall - m hm
    injection hm with hm
    rw [hall c hmem] at hcf
    cases hcf

/-- Facts when the claimed connection fails its probe, is retired, and the
retry ceiling (`maxSize`) is hit, ending the attach with the health-check
exhausted error. -/
theorem attachFacts_exhausted (beh : Nat → ConnBeh) (st : PoolState) (retries : Nat)
    (c : Conn) (hnd : UniqueIds st) (hbd : IdsBounded st)
    (hmem : c ∈ st.connections) (hav : c.available = true)
    (hhl : c.beh.healthy = false) (hcf : c.beh.closeFails = false)
    (hceil : st.maxSize ≤ retries + 1) :
    AttachFacts beh st retries (claimedRemoved st c.poolIndex)
      (.error (.healthCheckExhausted (retries + 1))) := by
  obtain ⟨-, hnd2, hbd2, hnid, hmax, -, -, hhc, hlen, hno, hunav, hprov, hrm, hcnt⟩ :=
    claim_retire_facts st c hnd hbd hmem hav hcf (retire_after_claim_eq st c hcf)
  refine ⟨hnd2, hbd2, le_of_eq hnid.symm, hmax, hhc, ?_, hunav, ?_, ?_, ?_, ?_, ?_, ?_, ?_, hcnt⟩
  · intro h; omega
  · intro q hq
    exact .inl (hprov q hq)
  · intro q hq hqn
    have := hrm q hq hqn
    have hqc : q = c := nodup_ids_inj hnd hq hmem this
    rw [hqc]; exact hhl
  · rintro c' hc'; cases hc'
  · rintro c' hc'; cases hc'
  · rintro e he
    injection he with he
    subst he
    exact .inr (.inl ⟨retries + 1, rfl⟩)
  · rintro hr m hm
    injection hm with hm
    injection hm with hm
    omega
  · rintro - - m hm
    injection hm with hm
    cases hm

/-- Membership in the id list. -/
theorem mem_ids_iff {st : PoolState} {i : Nat} :
    i ∈ ids st ↔ ∃ q ∈ st.connections, q.poolIndex = i := by
  simp [ids, List.mem_map]

/-- Growth preserves id uniqueness and the id bound. -/
theorem grow_preserves (beh : Nat → ConnBeh) (n : Nat) (inc : Bool) (st : PoolState)
    {st3 : PoolState} {inc3 : Bool} {u : Except PoolErr Unit}
    (hnd : UniqueIds st) (hbd : IdsBounded st)
    (hg : growLoop beh n inc st = (st3, inc3, u)) : UniqueIds st3 ∧ IdsBounded st3 := by
  obtain ⟨tail, hconn, htail, hndt, hmono, -, -, -, -, -, -, -, -⟩ := growLoop_facts beh n inc st hg
  constructor
  · show (ids st3).Nodup
    have : ids st3 = ids st ++ tail.map Conn.poolIndex := by
      simp [ids, hconn]
    rw [this, List.nodup_append]
    refine ⟨hnd, hndt, ?_⟩
    intro i hi hi'
    obtain ⟨q, hq, rfl⟩ := List.mem_map.1 hi
    obtain ⟨t, ht, hteq⟩ := List.mem_map.1 hi'
    have h1 := hbd q hq
    have h2 := (htail t ht).2.2.1
    omega
  · intro q hq
    rw [hconn] at hq
    rcases List.mem_append.1 hq with hq' | hq'
    · exact le_trans (hbd q hq') hmono
    · exact (htail q hq').2.2.2.1

/-- Compose the facts for the branch where the claimed connection failed its
probe and was retired, with the facts of the rest of the loop. -/
theorem attachFacts_compose_retire (beh : Nat → ConnBeh) (st : PoolState) (retries : Nat)
    (c : Conn) {st' : PoolState} {r : Except PoolErr Conn}
    (hnd : UniqueIds st) (hbd : IdsBounded st)
    (hmem : c ∈ st.connections) (hav : c.available = true)
    (hhl : c.beh.healthy = false) (hcf : c.beh.closeFails = false)
    (hceil : ¬ st.maxSize ≤ retries + 1)
    (F2 : AttachFacts beh (claimedRemoved st c.poolIndex) (retries + 1) st' r) :
    AttachFacts beh st retries st' r := by
  obtain ⟨-, -, -, hnid, hmax, -, -, hhc, hlen, -, hunav, hprov, hrm, hcnt⟩ :=
    claim_retire_facts st c hnd hbd hmem hav hcf (retire_after_claim_eq st c hcf)
  refine ⟨F2.nodup, F2.bounded, ?_, ?_, ?_, ?_, ?_, ?_, ?_, ?_, ?_, F2.errShape, ?_, ?_, ?_⟩
  · rw [← hnid]; exact F2.nidMono
  · rw [F2.cfgMax, hmax]
  · rw [F2.cfgHc, hhc]
  · intro h
    have h2 : (claimedRemoved st c.poolIndex).connections.length
        ≤ (claimedRemoved st c.poolIndex).maxSize := by
      rw [hmax]; omega
    have := F2.sizeLe h2
    rw [hmax] at this
    omega
  · intro p hp hpav
    exact F2.unavailKept p (hunav p hp hpav) hpav
  · intro q hq
    rcases F2.behKept q hq with ⟨p2, hp2, hpq, hbeh, hava⟩ | ⟨hfresh, hbeh⟩
    · obtain ⟨p, hp, hpe, hpb, hpa⟩ := hprov p2 hp2
      exact .inl ⟨p, hp, by rw [hpe, hpq], by rw [hpb, hbeh], fun h => hpa (hava h)⟩
    · rw [hnid] at hfresh
      exact .inr ⟨hfresh, hbeh⟩
  · intro q hq hqn
    by_cases hqid : q.poolIndex ∈ ids (claimedRemoved st c.poolIndex)
    · obtain ⟨q2, hq2, hq2eq⟩ := mem_ids_iff.1 hqid
      have hq2h := F2.removedUnhealthy q2 hq2 (by rw [hq2eq]; exact hqn)
      obtain ⟨p, hp, hpe, hpb, -⟩ := hprov q2 hq2
      have hpq : p = q := nodup_ids_inj hnd hp hq (by rw [hpe, hq2eq])
      rw [← hpq, hpb]
      exact hq2h
    · have := hrm q hq hqid
      have hqc : q = c := nodup_ids_inj hnd hq hmem this
      rw [hqc]; exact hhl
  · intro c' hc'
    obtain ⟨h1, h2, h3, h4⟩ := F2.okClaimed c' hc'
    refine ⟨h1, h2, h3, ?_⟩
    intro hh
    exact h4 (by rw [hhc]; exact hh)
  · intro c' hc'
    rcases F2.okSource c' hc' with ⟨q2, hq2, hq2e, hq2a⟩ | hfresh
    · obtain ⟨p, hp, hpe, -, hpa⟩ := hprov q2 hq2
      exact .inl ⟨p, hp, by rw [hpe, hq2e], hpa hq2a⟩
    · rw [hnid] at hfresh
      exact .inr hfresh
  · intro hr m hm
    have hr2 : retries + 1 < (claimedRemoved st c.poolIndex).maxSize := by
      rw [hmax]; omega
    have := F2.exhaustedCeiling hr2 m hm
    rw [hmax] at this
    exact this
  · intro hall hallb m
    refine F2.noCloseFailErr ?_ hallb m
    intro p2 hp2
    obtain ⟨p, hp, -, hpb, -⟩ := hprov p2 hp2
    rw [← hpb]
    exact hall p hp
  · intro h
    exact F2.cntKept (hcnt h)

/-- Compose the facts for the growth branch with the facts of the rest of
the loop. -/
theorem attachFacts_compose_grow (beh : Nat → ConnBeh) (st : PoolState) (retries : Nat)
    (inc : Bool) {st3 : PoolState} {inc3 : Bool} {st' : PoolState} {r : Except PoolErr Conn}
    (hnd : UniqueIds st) (hbd : IdsBounded st)
    (hgrow : growLoop beh st.incrementSize inc st = (st3, inc3, .ok ()))
    (F2 : AttachFacts beh st3 retries st' r) :
    AttachFacts beh st retries st' r := by
  obtain ⟨tail, hconn, htail, -, hmono, hmax, -, -, hgrowhc, hsizeg, -, -, -⟩ :=
    growLoop_facts beh st.incrementSize inc st hgrow
  refine ⟨F2.nodup, F2.bounded, ?_, ?_, ?_, ?_, ?_, ?_, ?_, ?_, ?_, F2.errShape, ?_, ?_, ?_⟩
  · exact le_trans hmono F2.nidMono
  · rw [F2.cfgMax, hmax]
  · rw [F2.cfgHc, hgrowhc]
  · intro h
    have := F2.sizeLe (by rw [hmax]; exact hsizeg h)
    rw [hmax] at this
    exact this
  · intro p hp hpav
    exact F2.unavailKept p (by rw [hconn]; exact List.mem_append_left _ hp) hpav
  · intro q hq
    rcases F2.behKept q hq with ⟨p3, hp3, hpq, hbeh, hava⟩ | ⟨hfresh, hbeh⟩
    · rw [hconn] at hp3
      rcases List.mem_append.1 hp3 with hp' | hp'
      · exact .inl ⟨p3, hp', hpq, hbeh, hava⟩
      · obtain ⟨-, -, hgt, -, hbeh'⟩ := htail p3 hp'
        refine .inr ⟨by omega, ?_⟩
        rw [← hbeh, hbeh', hpq]
    · exact .inr ⟨by omega, hbeh⟩
  · intro q hq hqn
    refine F2.removedUnhealthy q ?_ hqn
    rw [hconn]
    exact List.mem_append_left _ hq
  · intro c' hc'
    obtain ⟨h1, h2, h3, h4⟩ := F2.okClaimed c' hc'
    refine ⟨h1, h2, h3, ?_⟩
    intro hh
    exact h4 (by rw [hgrowhc]; exact hh)
  · intro c' hc'
    rcases F2.okSource c' hc' with ⟨q3, hq3, hq3e, hq3a⟩ | hfresh
    · rw [hconn] at hq3
      rcases List.mem_append.1 hq3 with hq' | hq'
      · exact .inl ⟨q3, hq', hq3e, hq3a⟩
      · obtain ⟨-, -, hgt, -, -⟩ := htail q3 hq'
        exact .inr (by omega)
    · exact .inr (by omega)
  · intro hr m hm
    have := F2.exhaustedCeiling (by rw [hmax]; omega) m hm
    rw [hmax] at this
    exact this
  · intro hall hallb m
    refine F2.noCloseFailErr ?_ hallb m
    intro p3 hp3
    rw [hconn] at hp3
    rcases List.mem_append.1 hp3 with hp' | hp'
    · exact hall p3 hp'
    · obtain ⟨-, -, -, -, hbeh'⟩ := htail p3 hp'
      rw [hbeh']
      exact hallb p3.poolIndex
  · intro h
    refine F2.cntKept ?_
    intro q hq hqav
    rw [hconn] at hq
    rcases List.mem_append.1 hq with hq' | hq'
    · exact h q hq' hqav
    · obtain ⟨hq3a, -, -, -, -⟩ := htail q hq'
      rw [hq3a] at hqav
      cases hqav

/-- The specification of one serialized `_attach` run, by induction on the
loop fuel. -/
theorem attachLoop_facts (beh : Nat → ConnBeh) (fuel : Nat) :
    ∀ (retries : Nat) (inc : Bool) (st st' : PoolState) (r : Except PoolErr Conn),
      UniqueIds st → IdsBounded st →
      attachLoop beh fuel retries inc st = (st', r) →
      AttachFacts beh st retries st' r := by
  induction fuel with
  | zero =>
    intro retries inc st st' r hnd hbd h
    simp only [attachLoop, Prod.mk.injEq] at h
    obtain ⟨rfl, rfl⟩ := h
    exact attachFacts_of_err beh st retries _ hnd hbd (.inr rfl)
  | succ fuel ih =>
    intro retries inc st st' r hnd hbd h
    cases hfind : st.connections.find? (fun c => c.available) with
    | some c =>
      have hmem : c ∈ st.connections := List.mem_of_find?_eq_some hfind
      have hav : c.available = true := List.find?_some hfind
      simp only [attachLoop, hfind] at h
      cases hhc : st.healthCheckOnAttach with
      | false =>
        rw [hhc] at h
        simp only [Bool.false_eq_true, if_false, Prod.mk.injEq] at h
        obtain ⟨rfl, rfl⟩ := h
        refine attachFacts_claimOk beh st retries c hnd hbd hmem hav ?_
        rw [hhc]
        intro hfalse
        cases hfalse
      | true =>
        rw [hhc] at h
        simp only [if_true] at h
        cases hhl : c.beh.healthy with
        | true =>
          rw [hhl] at h
          simp only [if_true, Prod.mk.injEq] at h
          obtain ⟨rfl, rfl⟩ := h
          exact attachFacts_claimOk beh st retries c hnd hbd hmem hav (fun _ => hhl)
        | false =>
          rw [hhl] at h
          simp only [Bool.false_eq_true, if_false] at h
          cases hcf : c.beh.closeFails with
          | true =>
            rw [retire_after_claim_err_eq st c hcf] at h
            simp only [Prod.mk.injEq] at h
            obtain ⟨rfl, rfl⟩ := h
            exact attachFacts_retireErr beh st retries c hnd hbd hmem hav hcf
          | false =>
            rw [retire_after_claim_eq st c hcf] at h
            simp only at h
            by_cases hceil : st.maxSize ≤ retries + 1
            · rw [if_pos hceil] at h
              simp only [Prod.mk.injEq] at h
              obtain ⟨rfl, rfl⟩ := h
              exact attachFacts_exhausted beh st retries c hnd hbd hmem hav hhl hcf hceil
            · rw [if_neg hceil] at h
              obtain ⟨hnd2, hbd2⟩ : UniqueIds (claimedRemoved st c.poolIndex) ∧
                  IdsBounded (claimedRemoved st c.poolIndex) := by
                obtain ⟨-, h1, h2, -⟩ :=
                  claim_retire_facts st c hnd hbd hmem hav hcf (retire_after_claim_eq st c hcf)
                exact ⟨h1, h2⟩
              exact attachFacts_compose_retire beh st retries c hnd hbd hmem hav hhl hcf hceil
                (ih (retries + 1) inc _ st' r hnd2 hbd2 h)
    | none =>
      simp only [attachLoop, hfind] at h
      rcases hgrow : growLoop beh st.incrementSize inc st with ⟨st3, inc3, g⟩
      rw [hgrow] at h
      simp only at h
      cases g with
      | error e =>
        simp only [Prod.mk.injEq] at h
        obtain ⟨rfl, rfl⟩ := h
        obtain ⟨-, -, -, -, -, -, -, -, -, -, herr, -, -⟩ :=
          growLoop_facts beh st.incrementSize inc st hgrow
        obtain ⟨rfl, -, m, rfl⟩ := herr e rfl
        exact attachFacts_of_err beh st3 retries _ hnd hbd (.inl ⟨m, rfl⟩)
      | ok u =>
        cases u
        obtain ⟨hnd3, hbd3⟩ := grow_preserves beh st.incrementSize inc st hnd hbd hgrow
        exact attachFacts_compose_grow beh st retries inc hnd hbd hgrow
          (ih retries inc3 st3 st' r hnd3 hbd3 h)

/-- With the fuel used by `attach`, the loop never reaches the dead-code
`RmPool: Unable to attach a connection` outcome: each pass either returns,
throws, retires one probe-failed candidate (bounded by the `maxSize` retry
ceiling) or grows an empty-scan pool by at least one available connection. -/
theorem attachLoop_no_fuel_err (beh : Nat → ConnBeh) (fuel : Nat) :
    ∀ (retries : Nat) (inc : Bool) (st st' : PoolState) (r : Except PoolErr Conn),
      UniqueIds st → IdsBounded st →
      st.connections.length ≤ st.maxSize →
      0 < st.incrementSize →
      (inc = true → (∃ c ∈ st.connections, c.available = true) ∨
        st.connections.length < st.maxSize) →
      2 * (st.maxSize - retries) +
        (if st.connections.any (fun c => c.available) = true then 0 else 1) < fuel →
      attachLoop beh fuel retries inc st = (st', r) →
      r ≠ .error .unableToAttach := by
  induction fuel with
  | zero =>
    intro retries inc st st' r _ _ _ _ _ hfuel _
    exact absurd hfuel (Nat.not_lt_zero _)
  | succ fuel ih =>
    intro retries inc st st' r hnd hbd hlen hincs hphi hfuel h
    have h01 : ∀ b : Bool, (if b = true then (0 : Nat) else 1) ≤ 1 := by
      intro b; cases b <;> simp
    cases hfind : st.connections.find? (fun c => c.available) with
    | some c =>
      have hmem : c ∈ st.connections := List.mem_of_find?_eq_some hfind
      have hav : c.available = true := List.find?_some hfind
      simp only [attachLoop, hfind] at h
      cases hhc : st.healthCheckOnAttach with
      | false =>
        rw [hhc] at h
        simp only [Bool.false_eq_true, if_false, Prod.mk.injEq] at h
        obtain ⟨rfl, rfl⟩ := h
        intro hcon; cases hcon
      | true =>
        rw [hhc] at h
        simp only [if_true] at h
        cases hhl : c.beh.healthy with
        | true =>
          rw [hhl] at h
          simp only [if_true, Prod.mk.injEq] at h
          obtain ⟨rfl, rfl⟩ := h
          intro hcon; cases hcon
        | false =>
          rw [hhl] at h
          simp only [Bool.false_eq_true, if_false] at h
          cases hcf : c.beh.closeFails with
          | true =>
            rw [retire_after_claim_err_eq st c hcf] at h
            simp only [Prod.mk.injEq] at h
            obtain ⟨rfl, rfl⟩ := h
            intro hcon
            injection hcon with hcon
            cases hcon
          | false =>
            rw [retire_after_claim_eq st c hcf] at h
            simp only at h
            by_cases hceil : st.maxSize ≤ retries + 1
            · rw [if_pos hceil] at h
              simp only [Prod.mk.injEq] at h
              obtain ⟨rfl, rfl⟩ := h
              intro hcon
              injection hcon with hcon
              cases hcon
            · rw [if_neg hceil] at h
              obtain ⟨-, hnd2, hbd2, -, hmax2, hincs2, -, -, hlen2, -, -, -, -, -⟩ :=
                claim_retire_facts st c hnd hbd hmem hav hcf (retire_after_claim_eq st c hcf)
              refine ih (retries + 1) inc _ st' r hnd2 hbd2 ?_ ?_ ?_ ?_ h
              · rw [hmax2]; omega
              · rw [hincs2]; exact hincs
              · intro _
                right
                rw [hmax2]
                omega
              · have e1 := h01 (st.connections.any fun c => c.available)
                have e2 := h01 ((claimedRemoved st c.poolIndex).connections.any
                  fun c => c.available)
                rw [hmax2]
                omega
    | none =>
      have hnone : ∀ x ∈ st.connections, x.available = false := by
        intro x hx
        have := List.find?_eq_none.1 hfind x hx
        simpa using this
      have hanyf : (st.connections.any fun c => c.available) = false := by
        rw [List.any_eq_false]
        intro x hx
        simp [hnone x hx]
      simp only [attachLoop, hfind] at h
      rcases hgrow : growLoop beh st.incrementSize inc st with ⟨st3, inc3, g⟩
      rw [hgrow] at h
      simp only at h
      cases g with
      | error e =>
        simp only [Prod.mk.injEq] at h
        obtain ⟨rfl, rfl⟩ := h
        obtain ⟨-, -, -, -, -, -, -, -, -, -, herr, -, -⟩ :=
          growLoop_facts beh st.incrementSize inc st hgrow
        obtain ⟨-, -, m, rfl⟩ := herr e rfl
        intro hcon
        injection hcon with hcon
        cases hcon
      | ok u =>
        cases u
        obtain ⟨hnd3, hbd3⟩ := grow_preserves beh st.incrementSize inc st hnd hbd hgrow
        obtain ⟨tail, hconn, htail, -, -, hmax3, hincs3, -, -, hsize3, -, hincfalse, hne⟩ :=
          growLoop_facts beh st.incrementSize inc st hgrow
        have hlenlt : st.connections.length < st.maxSize := by
          cases inc with
          | false => exact hincfalse rfl rfl hincs
          | true =>
            rcases hphi rfl with ⟨x, hx, hxa⟩ | hlt
            · rw [hnone x hx] at hxa; cases hxa
            · exact hlt
        have htne := hne rfl hincs hlenlt
        obtain ⟨t, ht⟩ := List.exists_mem_of_ne_nil tail htne
        have htav : t.available = true := (htail t ht).1
        have htmem : t ∈ st3.connections := by
          rw [hconn]; exact List.mem_append_right _ ht
        have hany3 : (st3.connections.any fun c => c.available) = true := by
          rw [List.any_eq_true]
          exact ⟨t, htmem, by simp [htav]⟩
        refine ih retries inc3 st3 st' r hnd3 hbd3 ?_ ?_ ?_ ?_ h
        · rw [hmax3]; exact hsize3 hlen
        · rw [hincs3]; exact hincs
        · intro _
          exact .inl ⟨t, htmem, htav⟩
        · rw [hanyf] at hfuel
          simp only [Bool.false_eq_true, if_false] at hfuel
          rw [hmax3, hany3]
          simp only [if_true]
          omega

/-- Unfolding: `attach` is one serialized `_attach` run starting with zero retries. -/
theorem attach_facts (beh : Nat → ConnBeh) {st st' : PoolState} {r : Except PoolErr Conn}
    (hnd : UniqueIds st) (hbd : IdsBounded st) (h : attach beh st = (st', r)) :
    AttachFacts beh st 0 st' r := by
  simp only [attach] at h
  exact attachLoop_facts beh _ 0 false st st' r hnd hbd h

/-- The function `attach` never produces the dead-code `unableToAttach` outcome on a pool
within its size bound and with a positive increment size. -/
theorem attach_no_unable (beh : Nat → ConnBeh) {st st' : PoolState} {r : Except PoolErr Conn}
    (hnd : UniqueIds st) (hbd : IdsBounded st)
    (hlen : st.connections.length ≤ st.maxSize) (hincs : 0 < st.incrementSize)
    (h : attach beh st = (st', r)) : r ≠ .error .unableToAttach := by
  simp only [attach] at h
  refine attachLoop_no_fuel_err beh _ 0 false st st' r hnd hbd hlen hincs ?_ ?_ h
  · intro hfalse; cases hfalse
  · have h01 : ∀ b : Bool, (if b = true then (0 : Nat) else 1) ≤ 1 := by
      intro b; cases b <;> simp
    have := h01 (st.connections.any fun c => c.available)
    omega

/-! ### Facts about the other pool operations -/

/-- Membership in an id-targeted update: the element is an updated or an
untouched copy of an original. -/
theorem mem_of_mem_update {l : List Conn} {i : Nat} {f : Conn → Conn} {q : Conn}
    (hq : q ∈ l.map fun x => if x.poolIndex = i then f x else x) :
    ∃ p ∈ l, q = f p ∨ q = p := by
  obtain ⟨p, hp, hpq⟩ := List.mem_map.1 hq
  by_cases h : p.poolIndex = i
  · rw [if_pos h] at hpq
    exact ⟨p, hp, .inl hpq.symm⟩
  · rw [if_neg h] at hpq
    exact ⟨p, hp, .inr hpq.symm⟩

/-- Operation `RmPool.detach` keeps ids, the counter and the size; availability of the
target becomes true, so the claimed-without-timer invariant is kept. -/
theorem detach_op_facts (st : PoolState) (c : Conn) (hnd : UniqueIds st)
    (hbd : IdsBounded st) :
    UniqueIds (detach st c) ∧ IdsBounded (detach st c) ∧
    (detach st c).nextConnectionId = st.nextConnectionId ∧
    (detach st c).maxSize = st.maxSize ∧
    ids (detach st c) = ids st ∧
    (ClaimedNoTimer st → ClaimedNoTimer (detach st c)) ∧
    (detach st c).connections.length = st.connections.length := by
  have hids : ids (detach st c) = ids st := ids_map_update (fun _ => rfl)
  refine ⟨?_, ?_, rfl, rfl, hids, ?_, List.length_map _ _⟩
  · show (ids _).Nodup
    rw [hids]; exact hnd
  · intro q hq
    obtain ⟨p, hp, hcase⟩ := mem_of_mem_update hq
    show q.poolIndex ≤ st.nextConnectionId
    rcases hcase with heq | heq
    · rw [heq]; exact hbd p hp
    · rw [heq]; exact hbd p hp
  · intro h q hq hqav
    obtain ⟨p, hp, hcase⟩ := mem_of_mem_update hq
    rcases hcase with heq | heq
    · rw [heq] at hqav
      simp [setExpiryTimerConn] at hqav
    · rw [heq] at hqav ⊢
      exact h p hp hqav

/-- Operation `RmPool.retire` (on either path) keeps id uniqueness, the id bound, the
counter and the size, keeps the claimed-without-timer invariant, never adds
connections, and only keeps ids that were already pooled. -/
theorem retire_op_facts (st : PoolState) (c : Conn) (hnd : UniqueIds st)
    (hbd : IdsBounded st) :
    UniqueIds (retire st c).1 ∧ IdsBounded (retire st c).1 ∧
    (retire st c).1.nextConnectionId = st.nextConnectionId ∧
    (retire st c).1.maxSize = st.maxSize ∧
    (∀ j ∈ ids (retire st c).1, j ∈ ids st) ∧
    (ClaimedNoTimer st → ClaimedNoTimer (retire st c).1) ∧
    (retire st c).1.connections.length ≤ st.connections.length := by
  have hids : ids (updateConn st c.poolIndex fun x => { x with expiryTimerId := false }) = ids st :=
    ids_map_update (fun _ => rfl)
  by_cases hcf : c.beh.closeFails = true
  · have heq : (retire st c).1
        = updateConn st c.poolIndex fun x => { x with expiryTimerId := false } := by
      simp [retire, hcf]
    rw [heq]
    refine ⟨?_, ?_, rfl, rfl, ?_, ?_, le_of_eq (List.length_map _ _)⟩
    · show (ids _).Nodup
      rw [hids]; exact hnd
    · intro q hq
      obtain ⟨p, hp, hcase⟩ := mem_of_mem_update hq
      show q.poolIndex ≤ st.nextConnectionId
      rcases hcase with heq' | heq'
      · rw [heq']; exact hbd p hp
      · rw [heq']; exact hbd p hp
    · intro j hj
      rw [hids] at hj; exact hj
    · intro h q hq hqav
      obtain ⟨p, hp, hcase⟩ := mem_of_mem_update hq
      rcases hcase with heq' | heq'
      · rw [heq']
      · rw [heq'] at hqav ⊢
        exact h p hp hqav
  · rw [Bool.not_eq_true] at hcf
    have heq : (retire st c).1
        = { updateConn st c.poolIndex (fun x => { x with expiryTimerId := false }) with
            connections := (removeFirst (fun x => decide (x.poolIndex = c.poolIndex))
              (updateConn st c.poolIndex
                (fun x => { x with expiryTimerId := false })).connections) } := by
      simp [retire, hcf, updateConn]
    rw [heq]
    have hsub := removeFirst_sublist (fun x => decide (x.poolIndex = c.poolIndex))
      (updateConn st c.poolIndex (fun x => { x with expiryTimerId := false })).connections
    refine ⟨?_, ?_, rfl, rfl, ?_, ?_, ?_⟩
    · show (List.map _ _).Nodup
      have hnd' : ((updateConn st c.poolIndex
          fun x => { x with expiryTimerId := false }).connections.map Conn.poolIndex).Nodup := by
        rw [show ((updateConn st c.poolIndex
          fun x => { x with expiryTimerId := false }).connections.map Conn.poolIndex)
          = ids st from hids]
        exact hnd
      exact hnd'.sublist (hsub.map Conn.poolIndex)
    · intro q hq
      obtain ⟨p, hp, hcase⟩ := mem_of_mem_update (hsub.subset hq)
      show q.poolIndex ≤ st.nextConnectionId
      rcases hcase with heq' | heq'
      · rw [heq']; exact hbd p hp
      · rw [heq']; exact hbd p hp
    · intro j hj
      obtain ⟨q, hq, rfl⟩ := List.mem_map.1 hj
      obtain ⟨p, hp, hcase⟩ := mem_of_mem_update (hsub.subset hq)
      rcases hcase with heq' | heq'
      · rw [heq']; exact List.mem_map.2 ⟨p, hp, rfl⟩
      · rw [heq']; exact List.mem_map.2 ⟨p, hp, rfl⟩
    · intro h q hq hqav
      obtain ⟨p, hp, hcase⟩ := mem_of_mem_update (hsub.subset hq)
      rcases hcase with heq' | heq'
      · rw [heq']
      · rw [heq'] at hqav ⊢
        exact h p hp hqav
    · calc (removeFirst _ _).length ≤ _ := hsub.length_le
        _ = st.connections.length := List.length_map _ _

/-- Marking unavailable and then cancelling the timer is the same update as
claiming. -/
theorem map_availfalse_cancel (l : List Conn) (i : Nat) :
    ((l.map fun x => if x.poolIndex = i then { x with available := false } else x).map
        fun x => if x.poolIndex = i then { x with expiryTimerId := false } else x)
      = l.map fun x => if x.poolIndex = i then claimConn x else x := by
  rw [List.map_map]
  refine List.map_congr_left ?_
  intro x _
  by_cases h : x.poolIndex = i
  · simp [h, claimConn]
  · simp [h]

/-- Running `setExpired` when the session close throws: the connection is marked
claimed (unavailable, timer cancelled) but stays pooled. -/
theorem setExpired_eq_fail (st : PoolState) (c : Conn) (hcf : c.beh.closeFails = true) :
    setExpired st c = updateConn st c.poolIndex claimConn := by
  simp only [setExpired, retire, hcf, if_true, updateConn]
  rw [map_availfalse_cancel]

/-- Running `setExpired` when the session close succeeds: the connection is removed
(after having been marked unavailable). -/
theorem setExpired_eq_ok (st : PoolState) (c : Conn) (hcf : c.beh.closeFails = false) :
    setExpired st c = claimedRemoved st c.poolIndex := by
  simp only [setExpired, retire, hcf, Bool.false_eq_true, if_false, updateConn, claimedRemoved]
  rw [map_availfalse_cancel]

/-- Operation `setExpired` keeps id uniqueness, the id bound, the counter and the size,
keeps the claimed-without-timer invariant, and never adds connections. -/
theorem setExpired_op_facts (st : PoolState) (c : Conn) (hnd : UniqueIds st)
    (hbd : IdsBounded st) :
    UniqueIds (setExpired st c) ∧ IdsBounded (setExpired st c) ∧
    (setExpired st c).nextConnectionId = st.nextConnectionId ∧
    (setExpired st c).maxSize = st.maxSize ∧
    (∀ j ∈ ids (setExpired st c), j ∈ ids st) ∧
    (ClaimedNoTimer st → ClaimedNoTimer (setExpired st c)) ∧
    (setExpired st c).connections.length ≤ st.connections.length := by
  have hids : ids (updateConn st c.poolIndex claimConn) = ids st :=
    ids_map_update (fun _ => rfl)
  by_cases hcf : c.beh.closeFails = true
  · rw [setExpired_eq_fail st c hcf]
    refine ⟨?_, ?_, rfl, rfl, ?_, ?_, le_of_eq (List.length_map _ _)⟩
    · show (ids _).Nodup
      rw [hids]; exact hnd
    · intro q hq
      obtain ⟨p, hp, hcase⟩ := mem_of_mem_update hq
      show q.poolIndex ≤ st.nextConnectionId
      rcases hcase with heq | heq
      · rw [heq]; exact hbd p hp
      · rw [heq]; exact hbd p hp
    · intro j hj
      rw [hids] at hj; exact hj
    · intro h q hq hqav
      obtain ⟨p, hp, hcase⟩ := mem_of_mem_update hq
      rcases hcase with heq | heq
      · rw [heq]; rfl
      · rw [heq] at hqav ⊢
        exact h p hp hqav
  · rw [Bool.not_eq_true] at hcf
    rw [setExpired_eq_ok st c hcf]
    have hsub := removeFirst_sublist (fun x => decide (x.poolIndex = c.poolIndex))
      (st.connections.map fun x => if x.poolIndex = c.poolIndex then claimConn x else x)
    refine ⟨?_, ?_, rfl, rfl, ?_, ?_, ?_⟩
    · show (List.map _ _).Nodup
      have hnd' : ((st.connections.map fun x =>
          if x.poolIndex = c.poolIndex then claimConn x else x).map Conn.poolIndex).Nodup := by
        rw [@ids_map_update st.connections c.poolIndex claimConn (fun _ => rfl)]
        exact hnd
      exact hnd'.sublist (hsub.map Conn.poolIndex)
    · intro q hq
      obtain ⟨p, hp, hcase⟩ := mem_of_mem_update (hsub.subset hq)
      show q.poolIndex ≤ st.nextConnectionId
      rcases hcase with heq | heq
      · rw [heq]; exact hbd p hp
      · rw [heq]; exact hbd p hp
    · intro j hj
      obtain ⟨q, hq, rfl⟩ := List.mem_map.1 hj
      obtain ⟨p, hp, hcase⟩ := mem_of_mem_update (hsub.subset hq)
      rcases hcase with heq | heq
      · rw [heq]; exact List.mem_map.2 ⟨p, hp, rfl⟩
      · rw [heq]; exact List.mem_map.2 ⟨p, hp, rfl⟩
    · intro h q hq hqav
      obtain ⟨p, hp, hcase⟩ := mem_of_mem_update (hsub.subset hq)
      rcases hcase with heq | heq
      · rw [heq]; rfl
      · rw [heq] at hqav ⊢
        exact h p hp hqav
    · calc (removeFirst _ _).length ≤ _ := hsub.length_le
        _ = st.connections.length := List.length_map _ _

/-- Operation `expireFire` (a pending timer firing) keeps id uniqueness, the id bound,
the counter and the size, keeps the claimed-without-timer invariant, and
never adds connections. -/
theorem expireFire_op_facts (st : PoolState) (idx : Nat) (hnd : UniqueIds st)
    (hbd : IdsBounded st) :
    UniqueIds (expireFire st idx) ∧ IdsBounded (expireFire st idx) ∧
    (expireFire st idx).nextConnectionId = st.nextConnectionId ∧
    (expireFire st idx).maxSize = st.maxSize ∧
    (∀ j ∈ ids (expireFire st idx), j ∈ ids st) ∧
    (ClaimedNoTimer st → ClaimedNoTimer (expireFire st idx)) ∧
    (expireFire st idx).connections.length ≤ st.connections.length := by
  cases hfind : st.connections.find? (fun c => c.poolIndex == idx) with
  | none =>
    have heq : expireFire st idx = st := by simp [expireFire, hfind]
    rw [heq]
    exact ⟨hnd, hbd, rfl, rfl, fun j hj => hj, fun h => h, le_rfl⟩
  | some c =>
    cases ht : c.expiryTimerId with
    | false =>
      have heq : expireFire st idx = st := by simp [expireFire, hfind, ht]
      rw [heq]
      exact ⟨hnd, hbd, rfl, rfl, fun j hj => hj, fun h => h, le_rfl⟩
    | true =>
      have heq : expireFire st idx = setExpired st c := by simp [expireFire, hfind, ht]
      rw [heq]
      exact setExpired_op_facts st c hnd hbd

/-- Operation `createConnection` assigns the incremented counter as the new stable id,
keeps id uniqueness and the id bound, and grows the pool by one. -/
theorem create_op_facts (beh : ConnBeh) (expiry : Option Int) (st : PoolState)
    (hnd : UniqueIds st) (hbd : IdsBounded st) :
    UniqueIds (createConnection beh expiry st).1 ∧
    IdsBounded (createConnection beh expiry st).1 ∧
    (createConnection beh expiry st).1.nextConnectionId = st.nextConnectionId + 1 ∧
    (createConnection beh expiry st).1.maxSize = st.maxSize ∧
    (∀ j ∈ ids (createConnection beh expiry st).1, j ∈ ids st ∨ st.nextConnectionId < j) ∧
    (ClaimedNoTimer st → ClaimedNoTimer (createConnection beh expiry st).1) ∧
    (createConnection beh expiry st).1.connections.length = st.connections.length + 1 ∧
    (createConnection beh expiry st).2.poolIndex = st.nextConnectionId + 1 := by
  have hidseq : ids (createConnection beh expiry st).1
      = ids st ++ [st.nextConnectionId + 1] := by
    simp [ids, createConnection]
  refine ⟨?_, ?_, rfl, rfl, ?_, ?_, by simp [createConnection], rfl⟩
  · show (ids _).Nodup
    rw [hidseq, List.nodup_append]
    refine ⟨hnd, List.nodup_singleton _, ?_⟩
    intro j hj hj'
    obtain ⟨q, hq, rfl⟩ := List.mem_map.1 hj
    have h1 := hbd q hq
    have h2 : q.poolIndex = st.nextConnectionId + 1 := List.mem_singleton.1 hj'
    omega
  · intro q hq
    show q.poolIndex ≤ st.nextConnectionId + 1
    simp only [createConnection, List.mem_append, List.mem_singleton] at hq
    rcases hq with hq | rfl
    · have := hbd q hq; omega
    · rfl
  · intro j hj
    rw [hidseq] at hj
    rcases List.mem_append.1 hj with hj | hj
    · exact .inl hj
    · have : j = st.nextConnectionId + 1 := List.mem_singleton.1 hj
      omega
  · intro h q hq hqav
    simp only [createConnection, List.mem_append, List.mem_singleton] at hq
    rcases hq with hq | rfl
    · exact h q hq hqav
    · cases hqav

/-- Operation `init` creates exactly the requested number of connections with fresh
ids, keeping id uniqueness, the id bound and the claimed-without-timer
invariant. -/
theorem initPool_facts (beh : Nat → ConnBeh) (expiry : Option Int) (n : Nat) :
    ∀ st : PoolState, UniqueIds st → IdsBounded st →
    UniqueIds (initPool beh expiry n st) ∧ IdsBounded (initPool beh expiry n st) ∧
    st.nextConnectionId ≤ (initPool beh expiry n st).nextConnectionId ∧
    (initPool beh expiry n st).maxSize = st.maxSize ∧
    (∀ j ∈ ids (initPool beh expiry n st), j ∈ ids st ∨ st.nextConnectionId < j) ∧
    (ClaimedNoTimer st → ClaimedNoTimer (initPool beh expiry n st)) ∧
    (initPool beh expiry n st).connections.length = st.connections.length + n := by
  induction n with
  | zero =>
    intro st hnd hbd
    exact ⟨hnd, hbd, le_rfl, rfl, fun j hj => .inl hj, fun h => h, rfl⟩
  | succ n ih =>
    intro st hnd hbd
    obtain ⟨hnd1, hbd1, hnid1, hmax1, hprov1, hcnt1, hlen1, -⟩ :=
      create_op_facts (beh (st.nextConnectionId + 1)) expiry st hnd hbd
    obtain ⟨hnd2, hbd2, hnid2, hmax2, hprov2, hcnt2, hlen2⟩ :=
      ih (createConnection (beh (st.nextConnectionId + 1)) expiry st).1 hnd1 hbd1
    rw [show initPool beh expiry (n + 1) st
      = initPool beh expiry n (createConnection (beh (st.nextConnectionId + 1)) expiry st).1
      from rfl]
    refine ⟨hnd2, hbd2, ?_, ?_, ?_, ?_, ?_⟩
    · rw [hnid1] at hnid2; omega
    · rw [hmax2, hmax1]
    · intro j hj
      rcases hprov2 j hj with hj' | hj'
      · rcases hprov1 j hj' with hj'' | hj''
        · exact .inl hj''
        · exact .inr hj''
      · rw [hnid1] at hj'
        exact .inr (by omega)
    · intro h
      exact hcnt2 (hcnt1 h)
    · rw [hlen2, hlen1]
      omega

/-- The `retireAll` loop keeps id uniqueness, the id bound, the counter and
the size, keeps the claimed-without-timer invariant, and never adds
connections. -/
theorem retireAllLoop_facts (f : Nat) :
    ∀ st : PoolState, UniqueIds st → IdsBounded st →
    UniqueIds (retireAllLoop f st).1 ∧ IdsBounded (retireAllLoop f st).1 ∧
    (retireAllLoop f st).1.nextConnectionId = st.nextConnectionId ∧
    (retireAllLoop f st).1.maxSize = st.maxSize ∧
    (∀ j ∈ ids (retireAllLoop f st).1, j ∈ ids st) ∧
    (ClaimedNoTimer st → ClaimedNoTimer (retireAllLoop f st).1) ∧
    (retireAllLoop f st).1.connections.length ≤ st.connections.length := by
  induction f with
  | zero =>
    intro st hnd hbd
    exact ⟨hnd, hbd, rfl, rfl, fun j hj => hj, fun h => h, le_rfl⟩
  | succ f ih =>
    intro st hnd hbd
    cases hc : st.connections with
    | nil =>
      have heq : retireAllLoop (f + 1) st = (st, .ok ()) := by
        simp [retireAllLoop, hc]
      rw [heq]
      exact ⟨hnd, hbd, rfl, rfl, fun j hj => hj, fun h => h, by simp [hc]⟩
    | cons c cs =>
      obtain ⟨hnd1, hbd1, hnid1, hmax1, hprov1, hcnt1, hlen1⟩ := retire_op_facts st c hnd hbd
      rw [hc] at hlen1
      rcases hret : retire st c with ⟨st1, u⟩
      have hst1 : st1 = (retire st c).1 := by rw [hret]
      cases u with
      | error e =>
        have heq : retireAllLoop (f + 1) st = (st1, .error (.retireAllFailed e)) := by
          simp [retireAllLoop, hc, hret]
        rw [heq, hst1]
        exact ⟨hnd1, hbd1, hnid1, hmax1, hprov1, hcnt1, hlen1⟩
      | ok u =>
        cases u
        have heq : retireAllLoop (f + 1) st = retireAllLoop f st1 := by
          simp [retireAllLoop, hc, hret]
        rw [heq, hst1]
        obtain ⟨hnd2, hbd2, hnid2, hmax2, hprov2, hcnt2, hlen2⟩ :=
          ih (retire st c).1 hnd1 hbd1
        refine ⟨hnd2, hbd2, ?_, ?_, ?_, ?_, ?_⟩
        · rw [hnid2, hnid1]
        · rw [hmax2, hmax1]
        · intro j hj
          exact hprov1 j (hprov2 j hj)
        · intro h
          exact hcnt2 (hcnt1 h)
        · omega

/-- Operations that do not create connections outside the bounded growth
path of `attach` (`createConnection` and `init` push unconditionally). -/
def GrowthSafe : PoolOp → Prop
  | .opCreate _ _ => False
  | .opInit _ _ _ => False
  | _ => True

/-- One client-visible operation preserves id uniqueness, the id bound, the
monotone counter, the configured size, id provenance (surviving ids are old
ids or fresh ones above the old counter), the claimed-without-timer
invariant, and — for growth-safe operations — the size bound. -/
theorem applyOp_facts (st : PoolState) (op : PoolOp) (hnd : UniqueIds st)
    (hbd : IdsBounded st) :
    UniqueIds (applyOp st op) ∧ IdsBounded (applyOp st op) ∧
    st.nextConnectionId ≤ (applyOp st op).nextConnectionId ∧
    (applyOp st op).maxSize = st.maxSize ∧
    (∀ j ∈ ids (applyOp st op), j ∈ ids st ∨ st.nextConnectionId < j) ∧
    (ClaimedNoTimer st → ClaimedNoTimer (applyOp st op)) ∧
    (GrowthSafe op → st.connections.length ≤ st.maxSize →
      (applyOp st op).connections.length ≤ st.maxSize) := by
  cases op with
  | opCreate beh expiry =>
    simp only [applyOp]
    obtain ⟨h1, h2, h3, h4, h5, h6, -, -⟩ := create_op_facts beh expiry st hnd hbd
    exact ⟨h1, h2, by omega, h4, h5, h6, fun hfalse => absurd hfalse (by simp [GrowthSafe])⟩
  | opInit beh count expiry =>
    simp only [applyOp]
    obtain ⟨h1, h2, h3, h4, h5, h6, -⟩ := initPool_facts beh expiry count st hnd hbd
    exact ⟨h1, h2, h3, h4, h5, h6, fun hfalse => absurd hfalse (by simp [GrowthSafe])⟩
  | opAttach beh =>
    simp only [applyOp]
    rcases hat : attach beh st with ⟨st1, r⟩
    have F := attach_facts beh hnd hbd hat
    refine ⟨F.nodup, F.bounded, F.nidMono, F.cfgMax, ?_, F.cntKept, fun _ h => F.sizeLe h⟩
    intro j hj
    obtain ⟨q, hq, rfl⟩ := mem_ids_iff.1 hj
    rcases F.behKept q hq with ⟨p, hp, hpe, -, -⟩ | ⟨hfresh, -⟩
    · exact .inl (mem_ids_iff.2 ⟨p, hp, hpe⟩)
    · exact .inr hfresh
  | opDetach idx =>
    cases hfind : st.connections.find? (fun c => c.poolIndex == idx) with
    | none =>
      have heq : applyOp st (.opDetach idx) = st := by simp [applyOp, hfind]
      rw [heq]
      exact ⟨hnd, hbd, le_rfl, rfl, fun j hj => .inl hj, fun h => h, fun _ h => h⟩
    | some c =>
      have heq : applyOp st (.opDetach idx) = detach st c := by simp [applyOp, hfind]
      rw [heq]
      obtain ⟨h1, h2, h3, h4, h5, h6, h7⟩ := detach_op_facts st c hnd hbd
      refine ⟨h1, h2, le_of_eq h3.symm, h4, ?_, h6, fun _ h => by omega⟩
      intro j hj
      rw [h5] at hj
      exact .inl hj
  | opRetire idx =>
    cases hfind : st.connections.find? (fun c => c.poolIndex == idx) with
    | none =>
      have heq : applyOp st (.opRetire idx) = st := by simp [applyOp, hfind]
      rw [heq]
      exact ⟨hnd, hbd, le_rfl, rfl, fun j hj => .inl hj, fun h => h, fun _ h => h⟩
    | some c =>
      have heq : applyOp st (.opRetire idx) = (retire st c).1 := by simp [applyOp, hfind]
      rw [heq]
      obtain ⟨h1, h2, h3, h4, h5, h6, h7⟩ := retire_op_facts st c hnd hbd
      exact ⟨h1, h2, le_of_eq h3.symm, h4, fun j hj => .inl (h5 j hj), h6, fun _ h => by omega⟩
  | opRetireAll =>
    simp only [applyOp, retireAll]
    obtain ⟨h1, h2, h3, h4, h5, h6, h7⟩ := retireAllLoop_facts st.connections.length st hnd hbd
    exact ⟨h1, h2, le_of_eq h3.symm, h4, fun j hj => .inl (h5 j hj), h6, fun _ h => by omega⟩
  | opQuery beh execFails =>
    rcases hat : attach beh st with ⟨st1, r⟩
    have F := attach_facts beh hnd hbd hat
    cases r with
    | error e =>
      have heq : applyOp st (.opQuery beh execFails) = st1 := by
        simp [applyOp, query, hat]
      rw [heq]
      refine ⟨F.nodup, F.bounded, F.nidMono, F.cfgMax, ?_, F.cntKept, fun _ h => F.sizeLe h⟩
      intro j hj
      obtain ⟨q, hq, rfl⟩ := mem_ids_iff.1 hj
      rcases F.behKept q hq with ⟨p, hp, hpe, -, -⟩ | ⟨hfresh, -⟩
      · exact .inl (mem_ids_iff.2 ⟨p, hp, hpe⟩)
      · exact .inr hfresh
    | ok c =>
      have heq : applyOp st (.opQuery beh execFails) = detach st1 c := by
        cases execFails <;> simp [applyOp, query, hat]
      rw [heq]
      obtain ⟨h1, h2, h3, h4, h5, h6, h7⟩ := detach_op_facts st1 c F.nodup F.bounded
      refine ⟨h1, h2, ?_, ?_, ?_, ?_, ?_⟩
      · rw [h3]; exact F.nidMono
      · rw [h4]; exact F.cfgMax
      · intro j hj
        rw [h5] at hj
        obtain ⟨q, hq, rfl⟩ := mem_ids_iff.1 hj
        rcases F.behKept q hq with ⟨p, hp, hpe, -, -⟩ | ⟨hfresh, -⟩
        · exact .inl (mem_ids_iff.2 ⟨p, hp, hpe⟩)
        · exact .inr hfresh
      · intro h
        exact h6 (F.cntKept h)
      · intro _ h
        rw [h7]
        exact F.sizeLe h
  | opExpire idx =>
    simp only [applyOp]
    obtain ⟨h1, h2, h3, h4, h5, h6, h7⟩ := expireFire_op_facts st idx hnd hbd
    exact ⟨h1, h2, le_of_eq h3.symm, h4, fun j hj => .inl (h5 j hj), h6, fun _ h => by omega⟩

/-- A whole sequence of operations preserves the pool invariants; the size
bound is preserved when all operations are growth-safe. -/
theorem runOps_facts (ops : List PoolOp) :
    ∀ st : PoolState, UniqueIds st → IdsBounded st →
    UniqueIds (runOps st ops) ∧ IdsBounded (runOps st ops) ∧
    st.nextConnectionId ≤ (runOps st ops).nextConnectionId ∧
    (runOps st ops).maxSize = st.maxSize ∧
    (∀ j ∈ ids (runOps st ops), j ∈ ids st ∨ st.nextConnectionId < j) ∧
    (ClaimedNoTimer st → ClaimedNoTimer (runOps st ops)) ∧
    ((∀ op ∈ ops, GrowthSafe op) → st.connections.length ≤ st.maxSize →
      (runOps st ops).connections.length ≤ (runOps st ops).maxSize) := by
  induction ops with
  | nil =>
    intro st hnd hbd
    exact ⟨hnd, hbd, le_rfl, rfl, fun j hj => .inl hj, fun h => h, fun _ h => h⟩
  | cons op rest ih =>
    intro st hnd hbd
    obtain ⟨h1, h2, h3, h4, h5, h6, h7⟩ := applyOp_facts st op hnd hbd
    obtain ⟨g1, g2, g3, g4, g5, g6, g7⟩ := ih (applyOp st op) h1 h2
    rw [show runOps st (op :: rest) = runOps (applyOp st op) rest from rfl]
    refine ⟨g1, g2, by omega, by rw [g4, h4], ?_, ?_, ?_⟩
    · intro j hj
      rcases g5 j hj with hj' | hj'
      · rcases h5 j hj' with hj'' | hj''
        · exact .inl hj''
        · exact .inr hj''
      · exact .inr (by omega)
    · intro h
      exact g6 (h6 h)
    · intro hsafe h
      have hsafe0 : GrowthSafe op := hsafe op (List.mem_cons_self op rest)
      have hsafe1 : ∀ o ∈ rest, GrowthSafe o := fun o ho => hsafe o (List.mem_cons_of_mem _ ho)
      have hlen1 : (applyOp st op).connections.length ≤ (applyOp st op).maxSize := by
        rw [h4]
        exact h7 hsafe0 h
      exact g7 hsafe1 hlen1

/-! ### Claim theorems -/

/-- C1: two `attach()` calls run back to back through the serialized
admission queue (the promise-chain mutex makes every pair of concurrent
calls execute their whole scan-or-grow decision in sequence) never resolve
to the same pooled connection while both are claimed: the two returned
connections have distinct ids, each is marked unavailable before being
returned, and both pool entries are still unavailable after the second
call. -/
theorem attach_no_double_claim (beh1 beh2 : Nat → ConnBeh) (st st1 st2 : PoolState)
    (c1 c2 : Conn) (hnd : UniqueIds st) (hbd : IdsBounded st)
    (h1 : attach beh1 st = (st1, .ok c1))
    (h2 : attach beh2 st1 = (st2, .ok c2)) :
    c1.poolIndex ≠ c2.poolIndex ∧
    c1.available = false ∧ c2.available = false ∧
    (∀ q ∈ st1.connections, q.poolIndex = c1.poolIndex → q.available = false) ∧
    (∀ q ∈ st2.connections, q.poolIndex = c1.poolIndex → q.available = false) ∧
    (∀ q ∈ st2.connections, q.poolIndex = c2.poolIndex → q.available = false) := by
  have F1 := attach_facts beh1 hnd hbd h1
  have F2 := attach_facts beh2 F1.nodup F1.bounded h2
  obtain ⟨hc1av, -, hc1mem, -⟩ := F1.okClaimed c1 rfl
  obtain ⟨hc2av, -, hc2mem, -⟩ := F2.okClaimed c2 rfl
  have hc1memst2 : c1 ∈ st2.connections := F2.unavailKept c1 hc1mem hc1av
  have hne : c1.poolIndex ≠ c2.poolIndex := by
    intro he
    rcases F2.okSource c2 rfl with ⟨q, hq, hqe, hqa⟩ | hfresh
    · have hqc : q = c1 := nodup_ids_inj F1.nodup hq hc1mem (by rw [hqe, ← he])
      rw [hqc, hc1av] at hqa
      cases hqa
    · have := F1.bounded c1 hc1mem
      omega
  refine ⟨hne, hc1av, hc2av, ?_, ?_, ?_⟩
  · intro q hq hqe
    have hqc : q = c1 := nodup_ids_inj F1.nodup hq hc1mem hqe
    rw [hqc]; exact hc1av
  · intro q hq hqe
    have hqc : q = c1 := nodup_ids_inj F2.nodup hq hc1memst2 hqe
    rw [hqc]; exact hc1av
  · intro q hq hqe
    have hqc : q = c2 := nodup_ids_inj F2.nodup hq hc2mem hqe
    rw [hqc]; exact hc2av

/-- A healthy, well-behaved session. -/
def okBeh : ConnBeh := ⟨true, false⟩

/-- Concrete pooled connection for the witnesses. -/
def wConn (i : Nat) (av : Bool) : Conn := ⟨i, av, none, false, okBeh⟩

/-- Concrete two-connection pool for the C1 witness (maxSize 5, increment 1,
health checking on, both connections available and healthy). -/
def w1St : PoolState := ⟨[wConn 1 true, wConn 2 true], 2, 5, 1, none, true⟩

/-- Pool after the first witness attach claimed connection 1. -/
def w1StA : PoolState := ⟨[wConn 1 false, wConn 2 true], 2, 5, 1, none, true⟩

/-- Pool after the second witness attach claimed connection 2. -/
def w1StB : PoolState := ⟨[wConn 1 false, wConn 2 false], 2, 5, 1, none, true⟩

/-- Witness for C1 on the concrete two-connection pool. -/
theorem attach_no_double_claim_witness :
    (wConn 1 false).poolIndex ≠ (wConn 2 false).poolIndex ∧
    (wConn 1 false).available = false ∧ (wConn 2 false).available = false ∧
    (∀ q ∈ w1StA.connections, q.poolIndex = (wConn 1 false).poolIndex → q.available = false) ∧
    (∀ q ∈ w1StB.connections, q.poolIndex = (wConn 1 false).poolIndex → q.available = false) ∧
    (∀ q ∈ w1StB.connections, q.poolIndex = (wConn 2 false).poolIndex → q.available = false) :=
  attach_no_double_claim (fun _ => okBeh) (fun _ => okBeh) w1St w1StA w1StB
    (wConn 1 false) (wConn 2 false) (by unfold UniqueIds ids; decide)
    (by unfold IdsBounded; decide) (by rfl) (by rfl)

theorem runOps_append (st : PoolState) (l1 l2 : List PoolOp) :
    runOps st (l1 ++ l2) = runOps (runOps st l1) l2 := by
  induction l1 generalizing st with
  | nil => rfl
  | cons op rest ih =>
    rw [show runOps st ((op :: rest) ++ l2) = runOps (applyOp st op) (rest ++ l2) from rfl]
    rw [show runOps st (op :: rest) = runOps (applyOp st op) rest from rfl]
    exact ih (applyOp st op)

/-- C4: a connection's id is assigned exactly once at creation, as the value
of the incremented monotone pool-scoped counter; pooled ids stay pairwise
distinct in every reachable state, and an id that has left the pool (and is
not above the counter, i.e. any id of a retired connection) never reappears
under any later sequence of create/retire/attach/expiry operations. -/
theorem poolIndex_assigned_once_never_reused (st : PoolState) (ops1 ops2 : List PoolOp)
    (i : Nat) (hnd : UniqueIds st) (hbd : IdsBounded st) :
    (∀ beh expiry, (createConnection beh expiry (runOps st ops1)).2.poolIndex
        = (runOps st ops1).nextConnectionId + 1 ∧
      (createConnection beh expiry (runOps st ops1)).1.nextConnectionId
        = (runOps st ops1).nextConnectionId + 1) ∧
    st.nextConnectionId ≤ (runOps st ops1).nextConnectionId ∧
    UniqueIds (runOps st ops1) ∧
    (i ∉ ids (runOps st ops1) → i ≤ (runOps st ops1).nextConnectionId →
      i ∉ ids (runOps st (ops1 ++ ops2))) := by
  obtain ⟨hnd1, hbd1, hmono1, -, -, -, -⟩ := runOps_facts ops1 st hnd hbd
  refine ⟨fun beh expiry => ⟨rfl, rfl⟩, hmono1, hnd1, ?_⟩
  intro hni hle hmem
  rw [runOps_append] at hmem
  obtain ⟨-, -, -, -, hprov2, -, -⟩ := runOps_facts ops2 (runOps st ops1) hnd1 hbd1
  rcases hprov2 i hmem with hmem' | hlt
  · exact hni hmem'
  · omega

/-- Witness for C4: retire connection 1 out of the two-connection pool, then
create another connection — id 1 never comes back (the new connection gets
id 3). -/
theorem poolIndex_assigned_once_never_reused_witness :
    (∀ beh expiry, (createConnection beh expiry (runOps w1St [.opRetire 1])).2.poolIndex
        = (runOps w1St [.opRetire 1]).nextConnectionId + 1 ∧
      (createConnection beh expiry (runOps w1St [.opRetire 1])).1.nextConnectionId
        = (runOps w1St [.opRetire 1]).nextConnectionId + 1) ∧
    w1St.nextConnectionId ≤ (runOps w1St [.opRetire 1]).nextConnectionId ∧
    UniqueIds (runOps w1St [.opRetire 1]) ∧
    (1 ∉ ids (runOps w1St [.opRetire 1]) →
      1 ≤ (runOps w1St [.opRetire 1]).nextConnectionId →
      1 ∉ ids (runOps w1St ([.opRetire 1] ++ [.opCreate okBeh none]))) :=
  poolIndex_assigned_once_never_reused w1St [.opRetire 1] [.opCreate okBeh none] 1
    (by unfold UniqueIds ids; decide) (by unfold IdsBounded; decide)

/-- Empty pool with `maxSize = 1` for the C2 counterexample. -/
def cSmallPool : PoolState := ⟨[], 0, 1, 1, none, true⟩

/-- C2 counterexample: `init` does not enforce `maxSize` — on a fresh pool
with `maxSize = 1` and `initialConnections.size = 2`, `init` leaves the pool
with 2 connections, violating `|connections| ≤ maxSize`. -/
theorem connections_le_maxSize_counterexample :
    (applyOp cSmallPool (.opInit (fun _ => okBeh) 2 none)).connections.length
      > (applyOp cSmallPool (.opInit (fun _ => okBeh) 2 none)).maxSize := by
  decide

/-- C2 (amended): `|connections| ≤ maxSize` is preserved by every
attach/detach/retire/retireAll/query/expiry operation (the growth loop of
`attach` stops at the bound), and holds after `init` on a fresh empty pool
whose initial size is at most `maxSize`; but `init`/`createConnection`
themselves push unconditionally, so an oversized initial configuration
exceeds the bound. -/
theorem connections_le_maxSize_amended (st : PoolState) (hnd : UniqueIds st)
    (hbd : IdsBounded st) :
    (∀ ops : List PoolOp, (∀ op ∈ ops, GrowthSafe op) →
      st.connections.length ≤ st.maxSize →
      (runOps st ops).connections.length ≤ (runOps st ops).maxSize) ∧
    (∀ (beh : Nat → ConnBeh) (count : Nat) (expiry : Option Int),
      st.connections = [] → count ≤ st.maxSize →
      (initPool beh expiry count st).connections.length
        ≤ (initPool beh expiry count st).maxSize) := by
  constructor
  · intro ops hsafe hlen
    obtain ⟨-, -, -, -, -, -, h7⟩ := runOps_facts ops st hnd hbd
    exact h7 hsafe hlen
  · intro beh count expiry hempty hcount
    obtain ⟨-, -, -, hmax, -, -, hlen⟩ := initPool_facts beh expiry count st hnd hbd
    rw [hlen, hmax, hempty]
    simpa using hcount

/-- Witness for the amended C2 on the concrete two-connection pool. -/
theorem connections_le_maxSize_amended_witness :
    (∀ ops : List PoolOp, (∀ op ∈ ops, GrowthSafe op) →
      w1St.connections.length ≤ w1St.maxSize →
      (runOps w1St ops).connections.length ≤ (runOps w1St ops).maxSize) ∧
    (∀ (beh : Nat → ConnBeh) (count : Nat) (expiry : Option Int),
      w1St.connections = [] → count ≤ w1St.maxSize →
      (initPool beh expiry count w1St).connections.length
        ≤ (initPool beh expiry count w1St).maxSize) :=
  connections_le_maxSize_amended w1St (by unfold UniqueIds ids; decide)
    (by unfold IdsBounded; decide)

/-- C8: the expiry subsystem never retires a claimed connection.  In every
reachable state a claimed connection has no pending timer (claiming in
`attach` cancels the timer before the claim completes, and the returned
connection is claimed with its timer cancelled); `setExpiryTimer` schedules a
timer iff the expiry value is a positive duration (detach reschedules from
the connection's own expiry); a timer can only fire on a connection with a
pending timer, so a claimed connection survives any firing untouched; and a
pooled connection with a pending timer whose session closes cleanly is
removed from the pool when its timer fires. -/
theorem expiry_never_retires_claimed (st : PoolState) (hnd : UniqueIds st)
    (hbd : IdsBounded st) :
    (∀ ops : List PoolOp, ClaimedNoTimer st → ClaimedNoTimer (runOps st ops)) ∧
    (∀ (beh : Nat → ConnBeh) (st' : PoolState) (c : Conn),
      attach beh st = (st', .ok c) → c.available = false ∧ c.expiryTimerId = false) ∧
    (∀ e : Option Int, timerFor e = true ↔ ∃ v, e = some v ∧ 0 < v) ∧
    (∀ c ∈ st.connections, ∀ q ∈ (detach st c).connections, q.poolIndex = c.poolIndex →
      q.available = true ∧ q.expiryTimerId = timerFor q.expiry) ∧
    (ClaimedNoTimer st → ∀ c ∈ st.connections, c.available = false →
      ∀ idx, c ∈ (expireFire st idx).connections) ∧
    (∀ c ∈ st.connections, c.expiryTimerId = true → c.beh.closeFails = false →
      c.poolIndex ∉ ids (expireFire st c.poolIndex)) := by
  refine ⟨?_, ?_, ?_, ?_, ?_, ?_⟩
  · intro ops h
    obtain ⟨-, -, -, -, -, h6, -⟩ := runOps_facts ops st hnd hbd
    exact h6 h
  · intro beh st' c h
    have F := attach_facts beh hnd hbd h
    obtain ⟨h1, h2, -, -⟩ := F.okClaimed c rfl
    exact ⟨h1, h2⟩
  · intro e
    cases e with
    | none => simp [timerFor]
    | some v =>
      simp only [timerFor, decide_eq_true_eq]
      constructor
      · intro h; exact ⟨v, rfl, h⟩
      · rintro ⟨w, hw, hpos⟩
        injection hw with hw
        rw [hw]; exact hpos
  · intro c hc q hq hqe
    obtain ⟨p, hp, hpq⟩ := List.mem_map.1 hq
    by_cases hpi : p.poolIndex = c.poolIndex
    · rw [if_pos hpi] at hpq
      rw [← hpq]
      exact ⟨rfl, rfl⟩
    · rw [if_neg hpi] at hpq
      rw [← hpq] at hqe
      exact absurd hqe hpi
  · intro hcnt c hc hcav idx
    cases hfind : st.connections.find? (fun x => x.poolIndex == idx) with
    | none =>
      have heq : expireFire st idx = st := by simp [expireFire, hfind]
      rw [heq]; exact hc
    | some d =>
      cases ht : d.expiryTimerId with
      | false =>
        have heq : expireFire st idx = st := by simp [expireFire, hfind, ht]
        rw [heq]; exact hc
      | true =>
        have heq : expireFire st idx = setExpired st d := by simp [expireFire, hfind, ht]
        rw [heq]
        have hdmem : d ∈ st.connections := List.mem_of_find?_eq_some hfind
        have hdav : d.available = true := by
          by_contra hdav
          rw [Bool.not_eq_true] at hdav
          rw [hcnt d hdmem hdav] at ht
          cases ht
        have hne : c.poolIndex ≠ d.poolIndex := by
          intro he
          have : c = d := nodup_ids_inj hnd hc hdmem he
          rw [this, hdav] at hcav
          cases hcav
        by_cases hcf : d.beh.closeFails = true
        · rw [setExpired_eq_fail st d hcf]
          exact mem_map_update_of_ne hc hne
        · rw [Bool.not_eq_true] at hcf
          rw [setExpired_eq_ok st d hcf]
          show c ∈ removeFirst _ _
          exact mem_removeFirst_of_not _ (mem_map_update_of_ne hc hne) (by simp [hne])
  · intro c hc ht hcf
    have hsome : ∃ d, st.connections.find? (fun x => x.poolIndex == c.poolIndex) = some d := by
      have : (st.connections.find? (fun x => x.poolIndex == c.poolIndex)).isSome := by
        rw [List.find?_isSome]
        exact ⟨c, hc, by simp⟩
      exact Option.isSome_iff_exists.1 this
    obtain ⟨d, hfind⟩ := hsome
    have hdmem : d ∈ st.connections := List.mem_of_find?_eq_some hfind
    have hdeq : d.poolIndex = c.poolIndex := by
      have := List.find?_some hfind
      simpa using this
    have hdc : d = c := nodup_ids_inj hnd hdmem hc hdeq
    subst hdc
    have heq : expireFire st d.poolIndex = setExpired st d := by
      simp [expireFire, hfind, ht]
    rw [heq, setExpired_eq_ok st d hcf]
    show d.poolIndex ∉ (removeFirst _ _).map Conn.poolIndex
    have hndmap : ((st.connections.map fun x =>
        if x.poolIndex = d.poolIndex then claimConn x else x).map Conn.poolIndex).Nodup := by
      rw [@ids_map_update st.connections d.poolIndex claimConn (fun _ => rfl)]
      exact hnd
    exact not_mem_ids_removeFirst hndmap

/-- Pool for the C8 witness: connection 1 claimed without timer, connection 2
idle with a pending one-minute expiry timer. -/
def w8St : PoolState :=
  ⟨[wConn 1 false, ⟨2, true, some 1, true, okBeh⟩], 2, 5, 1, none, true⟩

/-- Witness for C8 on the concrete pool with one claimed and one idle
connection. -/
theorem expiry_never_retires_claimed_witness :
    (∀ ops : List PoolOp, ClaimedNoTimer w8St → ClaimedNoTimer (runOps w8St ops)) ∧
    (∀ (beh : Nat → ConnBeh) (st' : PoolState) (c : Conn),
      attach beh w8St = (st', .ok c) → c.available = false ∧ c.expiryTimerId = false) ∧
    (∀ e : Option Int, timerFor e = true ↔ ∃ v, e = some v ∧ 0 < v) ∧
    (∀ c ∈ w8St.connections, ∀ q ∈ (detach w8St c).connections, q.poolIndex = c.poolIndex →
      q.available = true ∧ q.expiryTimerId = timerFor q.expiry) ∧
    (ClaimedNoTimer w8St → ∀ c ∈ w8St.connections, c.available = false →
      ∀ idx, c ∈ (expireFire w8St idx).connections) ∧
    (∀ c ∈ w8St.connections, c.expiryTimerId = true → c.beh.closeFails = false →
      c.poolIndex ∉ ids (expireFire w8St c.poolIndex)) :=
  expiry_never_retires_claimed w8St (by unfold UniqueIds ids; decide)
    (by unfold IdsBounded; decide)

/-- Retiring the head of the pool when its close succeeds just drops it. -/
theorem retire_head_ok (st : PoolState) (h : Conn) (tl : List Conn)
    (hconn : st.connections = h :: tl) (hnd : UniqueIds st)
    (hcf : h.beh.closeFails = false) :
    retire st h = ({ st with connections := tl }, .ok ()) := by
  have hnotin : ∀ x ∈ tl, x.poolIndex ≠ h.poolIndex := by
    have : (ids st).Nodup := hnd
    rw [show ids st = h.poolIndex :: tl.map Conn.poolIndex by simp [ids, hconn]] at this
    intro x hx he
    exact (List.nodup_cons.1 this).1 (List.mem_map.2 ⟨x, hx, he⟩)
  have hmap : tl.map (fun x => if x.poolIndex = h.poolIndex
      then { x with expiryTimerId := false } else x) = tl := by
    conv_rhs => rw [← List.map_id tl]
    refine List.map_congr_left ?_
    intro x hx
    simp [hnotin x hx]
  simp only [retire, hcf, Bool.false_eq_true, if_false, updateConn, hconn, List.map_cons,
    if_pos rfl, hmap, Prod.mk.injEq, PoolState.mk.injEq, and_true, true_and]
  rw [removeFirst]
  simp

/-- Retiring the head of the pool when its close throws keeps it (with its
timer cancelled) and surfaces the wrapped error. -/
theorem retire_head_fail (st : PoolState) (h : Conn) (tl : List Conn)
    (hconn : st.connections = h :: tl) (hnd : UniqueIds st)
    (hcf : h.beh.closeFails = true) :
    retire st h = ({ st with connections := { h with expiryTimerId := false } :: tl },
      .error (.retireFailed h.poolIndex)) := by
  have hnotin : ∀ x ∈ tl, x.poolIndex ≠ h.poolIndex := by
    have : (ids st).Nodup := hnd
    rw [show ids st = h.poolIndex :: tl.map Conn.poolIndex by simp [ids, hconn]] at this
    intro x hx he
    exact (List.nodup_cons.1 this).1 (List.mem_map.2 ⟨x, hx, he⟩)
  have hmap : tl.map (fun x => if x.poolIndex = h.poolIndex
      then { x with expiryTimerId := false } else x) = tl := by
    conv_rhs => rw [← List.map_id tl]
    refine List.map_congr_left ?_
    intro x hx
    simp [hnotin x hx]
  simp only [retire, hcf, if_true, updateConn, hconn, List.map_cons, if_pos rfl, hmap]

/-- Full characterization of the `retireAll` loop: with enough fuel it
empties the pool when every close succeeds, and stops at the first
connection whose close throws, keeping that connection and every later one
and reporting the wrapped failure. -/
theorem retireAllLoop_char (fuel : Nat) :
    ∀ st : PoolState, UniqueIds st → st.connections.length ≤ fuel →
    ((∀ c ∈ st.connections, c.beh.closeFails = false) →
      (retireAllLoop fuel st).2 = .ok () ∧ (retireAllLoop fuel st).1.connections = []) ∧
    (∀ pre c suf, st.connections = pre ++ c :: suf →
      (∀ p ∈ pre, p.beh.closeFails = false) → c.beh.closeFails = true →
      (retireAllLoop fuel st).2 = .error (.retireAllFailed (.retireFailed c.poolIndex)) ∧
      (retireAllLoop fuel st).1.connections = { c with expiryTimerId := false } :: suf) := by
  induction fuel with
  | zero =>
    intro st hnd hlen
    have hempty : st.connections = [] := List.length_eq_zero.1 (Nat.le_zero.1 hlen)
    constructor
    · intro _
      exact ⟨rfl, by simp [retireAllLoop, hempty]⟩
    · intro pre c suf hsplit _ _
      rw [hempty] at hsplit
      exact absurd hsplit.symm (by simp)
  | succ fuel ih =>
    intro st hnd hlen
    cases hc : st.connections with
    | nil =>
      have heq : retireAllLoop (fuel + 1) st = (st, .ok ()) := by
        simp [retireAllLoop, hc]
      constructor
      · intro _
        rw [heq]
        exact ⟨rfl, hc⟩
      · intro pre c suf hsplit _ _
        simp at hsplit
    | cons hd tl =>
      have hndtl : UniqueIds { st with connections := tl } := by
        show (tl.map Conn.poolIndex).Nodup
        have : (ids st).Nodup := hnd
        rw [show ids st = hd.poolIndex :: tl.map Conn.poolIndex by simp [ids, hc]] at this
        exact (List.nodup_cons.1 this).2
      have hlentl : ({ st with connections := tl } : PoolState).connections.length ≤ fuel := by
        rw [hc] at hlen
        simpa using Nat.le_of_succ_le_succ hlen
      constructor
      · intro hall
        have hcfhd : hd.beh.closeFails = false := hall hd (List.mem_cons_self _ _)
        have heq : retireAllLoop (fuel + 1) st = retireAllLoop fuel { st with connections := tl } := by
          simp [retireAllLoop, hc, retire_head_ok st hd tl hc hnd hcfhd]
        rw [heq]
        refine (ih { st with connections := tl } hndtl hlentl).1 ?_
        intro x hx
        exact hall x (List.mem_cons_of_mem _ hx)
      · intro pre c suf hsplit hpre hcf
        cases pre with
        | nil =>
          simp only [List.nil_append] at hsplit
          injection hsplit with h1 h2
          have heq : retireAllLoop (fuel + 1) st
              = ({ st with connections := { hd with expiryTimerId := false } :: tl },
                 .error (.retireAllFailed (.retireFailed hd.poolIndex))) := by
            simp [retireAllLoop, hc, retire_head_fail st hd tl hc hnd (by rw [h1]; exact hcf)]
          rw [heq, ← h1, ← h2]
          exact ⟨rfl, rfl⟩
        | cons p pre' =>
          simp only [List.cons_append] at hsplit
          injection hsplit with h1 h2
          subst h1
          have hcfhd : hd.beh.closeFails = false := hpre hd (List.mem_cons_self _ _)
          have heq : retireAllLoop (fuel + 1) st
              = retireAllLoop fuel { st with connections := tl } := by
            simp [retireAllLoop, hc, retire_head_ok st hd tl hc hnd hcfhd]
          rw [heq]
          refine ((ih { st with connections := tl } hndtl hlentl).2 pre' c suf (by rw [h2]) ?_ hcf)
          intro x hx
          exact hpre x (List.mem_cons_of_mem _ hx)

/-- Connections for the C5 counterexample: three pooled connections whose
middle one fails to close. -/
def c5St : PoolState :=
  ⟨[⟨1, true, none, false, okBeh⟩, ⟨2, true, none, false, ⟨true, true⟩⟩,
    ⟨3, true, none, false, okBeh⟩], 3, 5, 1, none, true⟩

/-- C5 counterexample: on a 3-connection pool whose 2nd connection's close
throws, `retireAll` retires the 1st, then stops: the 2nd AND the 3rd both
remain pooled (the 3rd is not retired, contrary to the claim), and the call
surfaces one wrapped failure referencing connection 2. -/
theorem retireAll_counterexample :
    (retireAll c5St).2 = .error (.retireAllFailed (.retireFailed 2)) ∧
    ids (retireAll c5St).1 = [2, 3] := by
  constructor
  · rfl
  · rfl

/-- C5 (amended): `retireAll` retires connections from the front and stops
at the first connection whose session close throws; connections before it
are retired, but that connection and every later one remain in the pool, and
the call surfaces a single wrapped `Failed to retireAll()` error whose cause
references the failing connection.  Only when every close succeeds are all
connections retired. -/
theorem retireAll_stops_at_first_failure (st : PoolState) (hnd : UniqueIds st) :
    ((∀ c ∈ st.connections, c.beh.closeFails = false) →
      (retireAll st).2 = .ok () ∧ (retireAll st).1.connections = []) ∧
    (∀ pre c suf, st.connections = pre ++ c :: suf →
      (∀ p ∈ pre, p.beh.closeFails = false) → c.beh.closeFails = true →
      (retireAll st).2 = .error (.retireAllFailed (.retireFailed c.poolIndex)) ∧
      (retireAll st).1.connections = { c with expiryTimerId := false } :: suf) :=
  retireAllLoop_char st.connections.length st hnd le_rfl

/-- Witness for the amended C5 on the concrete 3-connection pool. -/
theorem retireAll_stops_at_first_failure_witness :
    ((∀ c ∈ c5St.connections, c.beh.closeFails = false) →
      (retireAll c5St).2 = .ok () ∧ (retireAll c5St).1.connections = []) ∧
    (∀ pre c suf, c5St.connections = pre ++ c :: suf →
      (∀ p ∈ pre, p.beh.closeFails = false) → c.beh.closeFails = true →
      (retireAll c5St).2 = .error (.retireAllFailed (.retireFailed c.poolIndex)) ∧
      (retireAll c5St).1.connections = { c with expiryTimerId := false } :: suf) :=
  retireAll_stops_at_first_failure c5St (by unfold UniqueIds ids; decide)

/-- The connection for the C6 counterexample: claimed, pending timer, and a
session whose close throws. -/
def c6Conn : Conn := ⟨1, false, some 1, true, ⟨true, true⟩⟩

/-- The pool for the C6 counterexample. -/
def c6St : PoolState := ⟨[c6Conn], 1, 5, 1, none, true⟩

/-- C6 counterexample: when closing the session throws, `retire` reports the
wrapped failure but the connection is NOT removed — it is still pooled
afterwards (contrary to the claim that it is removed from the bookkeeping). -/
theorem retire_failed_close_counterexample :
    (retire c6St c6Conn).2 = .error (.retireFailed 1) ∧
    ids (retire c6St c6Conn).1 = [1] := by
  constructor
  · rfl
  · rfl

/-- C6 (amended): if closing the underlying session fails, `retire` reports
the wrapped failure to the caller and the connection REMAINS in the pool's
`connections` collection, with only its expiry timer cancelled (the
`indexOf`/`splice` removal sits after the `await connection.retire()` inside
the `try`, so it is skipped on a throw); the connection is removed only when
the close succeeds. -/
theorem retire_failed_close_keeps_connection (st : PoolState) (c : Conn)
    (hnd : UniqueIds st) (hmem : c ∈ st.connections) :
    (c.beh.closeFails = true →
      (retire st c).2 = .error (.retireFailed c.poolIndex) ∧
      ∃ q ∈ (retire st c).1.connections, q.poolIndex = c.poolIndex ∧
        q.available = c.available ∧ q.expiryTimerId = false) ∧
    (c.beh.closeFails = false →
      (retire st c).2 = .ok () ∧ c.poolIndex ∉ ids (retire st c).1) := by
  constructor
  · intro hcf
    refine ⟨by simp [retire, hcf], ?_⟩
    refine ⟨{ c with expiryTimerId := false }, ?_, rfl, rfl, rfl⟩
    have : (retire st c).1.connections = st.connections.map
        (fun x => if x.poolIndex = c.poolIndex then { x with expiryTimerId := false } else x) := by
      simp [retire, hcf, updateConn]
    rw [this]
    exact List.mem_map.2 ⟨c, hmem, by simp⟩
  · intro hcf
    refine ⟨by simp [retire, hcf], ?_⟩
    have : (retire st c).1.connections = removeFirst (fun x => decide (x.poolIndex = c.poolIndex))
        (st.connections.map
          (fun x => if x.poolIndex = c.poolIndex then { x with expiryTimerId := false } else x)) := by
      simp [retire, hcf, updateConn]
    show c.poolIndex ∉ (retire st c).1.connections.map Conn.poolIndex
    rw [this]
    refine not_mem_ids_removeFirst ?_
    rw [@ids_map_update st.connections c.poolIndex
      (fun x => { x with expiryTimerId := false }) (fun _ => rfl)]
    exact hnd

/-- Witness for the amended C6 on the concrete one-connection pool. -/
theorem retire_failed_close_keeps_connection_witness :
    (c6Conn.beh.closeFails = true →
      (retire c6St c6Conn).2 = .error (.retireFailed c6Conn.poolIndex) ∧
      ∃ q ∈ (retire c6St c6Conn).1.connections, q.poolIndex = c6Conn.poolIndex ∧
        q.available = c6Conn.available ∧ q.expiryTimerId = false) ∧
    (c6Conn.beh.closeFails = false →
      (retire c6St c6Conn).2 = .ok () ∧ c6Conn.poolIndex ∉ ids (retire c6St c6Conn).1) :=
  retire_failed_close_keeps_connection c6St c6Conn (by unfold UniqueIds ids; decide)
    (by unfold c6St; exact List.mem_singleton.2 rfl)

/-- After detaching `c` in a pool where every other connection is claimed,
the left-to-right scan finds exactly the re-available entry of `c`. -/
theorem find?_avail_detach (l : List Conn) (c : Conn) (hmem : c ∈ l)
    (hnd : (l.map Conn.poolIndex).Nodup)
    (honly : ∀ q ∈ l, q.poolIndex ≠ c.poolIndex → q.available = false) :
    (l.map fun x => if x.poolIndex = c.poolIndex
        then setExpiryTimerConn { x with available := true } else x).find?
      (fun x => x.available)
      = some (setExpiryTimerConn { c with available := true }) := by
  induction l with
  | nil => simp at hmem
  | cons h tl ih =>
    simp only [List.map_cons, List.nodup_cons, List.mem_map] at hnd
    by_cases hh : h.poolIndex = c.poolIndex
    · have hhc : h = c := by
        rcases List.mem_cons.1 hmem with rfl | hmem'
        · rfl
        · exact absurd ⟨c, hmem', hh.symm⟩ hnd.1
      subst hhc
      simp [List.find?, hh, setExpiryTimerConn]
    · have hha : h.available = false := honly h (List.mem_cons_self _ _) hh
      have hmem' : c ∈ tl := by
        rcases List.mem_cons.1 hmem with rfl | hmem'
        · exact absurd rfl hh
        · exact hmem'
      simp only [List.map_cons, if_neg hh, List.find?, hha]
      exact ih hmem' hnd.2 (fun q hq => honly q (List.mem_cons_of_mem _ hq))

/-- Pool for the C7 counterexample: connection 1 available, connection 2
claimed. -/
def c7St : PoolState := ⟨[wConn 1 true, wConn 2 false], 2, 5, 1, none, true⟩

/-- C7 counterexample: detaching connection 2 and then attaching (with no
other callers in between) returns connection 1 — the first available entry
in scan order — not the connection that was just detached. -/
theorem detach_then_attach_counterexample :
    (attach (fun _ => okBeh) (detach c7St (wConn 2 false))).2 = .ok (wConn 1 false) ∧
    (wConn 1 false).poolIndex ≠ (wConn 2 false).poolIndex := by
  constructor
  · rfl
  · decide

/-- C7 (amended): `detach(c)` followed immediately by `attach()` with no
other callers does not in general return `c` — the scan takes the first
available connection, which may be another one (see the counterexample);
`attach()` does return the just-detached `c`, and without growing the pool,
in the common case where `c` is the only available connection (every other
connection still claimed) and `c` passes the health probe (or health
checking is disabled). -/
theorem detach_then_attach_returns_sole_available (st : PoolState) (c : Conn)
    (beh : Nat → ConnBeh) (hnd : UniqueIds st) (hmem : c ∈ st.connections)
    (hclaimed : c.available = false)
    (honly : ∀ q ∈ st.connections, q.poolIndex ≠ c.poolIndex → q.available = false)
    (hh : st.healthCheckOnAttach = false ∨ c.beh.healthy = true) :
    ∃ st' : PoolState,
      attach beh (detach st c)
        = (st', .ok (claimConn (setExpiryTimerConn { c with available := true }))) ∧
      (claimConn (setExpiryTimerConn { c with available := true })).poolIndex = c.poolIndex ∧
      st'.connections.length = st.connections.length := by
  have hfind : (detach st c).connections.find? (fun x => x.available)
      = some (setExpiryTimerConn { c with available := true }) :=
    find?_avail_detach st.connections c hmem hnd honly
  refine ⟨updateConn (detach st c)
      (setExpiryTimerConn { c with available := true }).poolIndex claimConn, ?_, rfl, ?_⟩
  · show attachLoop beh (2 * (detach st c).maxSize + 2) 0 false (detach st c) = _
    rw [show 2 * (detach st c).maxSize + 2 = (2 * (detach st c).maxSize + 1) + 1 from rfl]
    simp only [attachLoop, hfind]
    cases hhc : (detach st c).healthCheckOnAttach with
    | false => simp
    | true =>
      rcases hh with hh | hh
      · have : (detach st c).healthCheckOnAttach = st.healthCheckOnAttach := rfl
        rw [this, hh] at hhc
        cases hhc
      · have hhd : (setExpiryTimerConn { c with available := true }).beh.healthy = true := hh
        simp [hhd]
  · simp [updateConn, detach]

/-- Pool for the C7 witness: both connections claimed; detaching connection 2
makes it the sole available one. -/
def w7St : PoolState := ⟨[wConn 1 false, wConn 2 false], 2, 5, 1, none, true⟩

/-- Witness for the amended C7: with every other connection claimed, attach
after detach returns exactly the detached connection. -/
theorem detach_then_attach_returns_sole_available_witness :
    ∃ st' : PoolState,
      attach (fun _ => okBeh) (detach w7St (wConn 2 false))
        = (st', .ok (claimConn (setExpiryTimerConn { wConn 2 false with available := true }))) ∧
      (claimConn (setExpiryTimerConn { wConn 2 false with available := true })).poolIndex
        = (wConn 2 false).poolIndex ∧
      st'.connections.length = w7St.connections.length :=
  detach_then_attach_returns_sole_available w7St (wConn 2 false) (fun _ => okBeh)
    (by unfold UniqueIds ids; decide) (by unfold w7St; decide) (by decide)
    (by unfold w7St; decide) (by decide)

/-- C9: `query` borrows a connection via `attach` and, whenever the attach
succeeded, detaches that same connection on both the success and the failure
path of the execution: after `query` settles, the borrowed connection is
available in the pool again, and the result is the execution's outcome. -/
theorem query_releases_connection (beh : Nat → ConnBeh) (execFails : Bool)
    (st st1 stq : PoolState) (c : Conn) (r : Except PoolErr Unit)
    (hnd : UniqueIds st) (hbd : IdsBounded st)
    (ha : attach beh st = (st1, .ok c))
    (hq : query beh execFails st = (stq, r)) :
    (∃ q ∈ stq.connections, q.poolIndex = c.poolIndex ∧ q.available = true) ∧
    (execFails = true → r = .error .queryFailed) ∧
    (execFails = false → r = .ok ()) := by
  have F := attach_facts beh hnd hbd ha
  obtain ⟨-, -, hcmem, -⟩ := F.okClaimed c rfl
  have hqeq : query beh execFails st
      = (detach st1 c, if execFails then .error .queryFailed else .ok ()) := by
    cases execFails <;> simp [query, ha]
  rw [hqeq] at hq
  injection hq with hq1 hq2
  constructor
  · rw [← hq1]
    refine ⟨setExpiryTimerConn { c with available := true }, ?_, rfl, rfl⟩
    show _ ∈ (detach st1 c).connections
    exact List.mem_map.2 ⟨c, hcmem, by simp⟩
  · constructor
    · intro he
      rw [he] at hq2
      simp at hq2
      rw [← hq2]
    · intro he
      rw [he] at hq2
      simp at hq2
      rw [← hq2]

/-- Witness for C9 on the concrete two-connection pool, with a failing
execution: connection 1 is borrowed and is available again afterwards, and
the execution error is surfaced. -/
theorem query_releases_connection_witness :
    (∃ q ∈ (query (fun _ => okBeh) true w1St).1.connections,
      q.poolIndex = (wConn 1 false).poolIndex ∧ q.available = true) ∧
    (true = true → (query (fun _ => okBeh) true w1St).2 = .error .queryFailed) ∧
    (true = false → (query (fun _ => okBeh) true w1St).2 = .ok ()) :=
  query_releases_connection (fun _ => okBeh) true w1St w1StA
    (query (fun _ => okBeh) true w1St).1 (wConn 1 false)
    (query (fun _ => okBeh) true w1St).2
    (by unfold UniqueIds ids; decide) (by unfold IdsBounded; decide) (by rfl) (by rfl)

/-- C3: with health checking enabled (and sessions whose close succeeds),
one `attach` run never hands out a connection that failed its probe; the
only connections it removes from the pool are probe-failed candidates; the
first available candidate, if unhealthy, is retired (removed, and the scan
restarts on the shorter collection); and a failure surfaces either as the
pool-exhausted error or as the health-check-exhausted error carrying exactly
the `maxSize` retry ceiling — a probe failure itself is never the attach
error below the ceiling. -/
theorem attach_health_check_policy (beh : Nat → ConnBeh) (st st' : PoolState)
    (r : Except PoolErr Conn)
    (hnd : UniqueIds st) (hbd : IdsBounded st)
    (hlen : st.connections.length ≤ st.maxSize) (hmax : 0 < st.maxSize)
    (hincs : 0 < st.incrementSize) (hhc : st.healthCheckOnAttach = true)
    (hcf : ∀ c ∈ st.connections, c.beh.closeFails = false)
    (hcfb : ∀ n, (beh n).closeFails = false)
    (h : attach beh st = (st', r)) :
    (∀ c, r = .ok c → c.beh.healthy = true) ∧
    (∀ q ∈ st.connections, q.poolIndex ∉ ids st' → q.beh.healthy = false) ∧
    (∀ c, st.connections.find? (fun x => x.available) = some c → c.beh.healthy = false →
      c.poolIndex ∉ ids st') ∧
    (∀ e, r = .error e → (∃ m, e = .maxReached m) ∨ e = .healthCheckExhausted st.maxSize) := by
  have F := attach_facts beh hnd hbd h
  refine ⟨?_, F.removedUnhealthy, ?_, ?_⟩
  · intro c hc
    exact (F.okClaimed c hc).2.2.2 hhc
  · intro c hfind hhl
    have hmem := List.mem_of_find?_eq_some hfind
    have hav : c.available = true := List.find?_some hfind
    have hcfc : c.beh.closeFails = false := hcf c hmem
    obtain ⟨-, hnd2, hbd2, hnid2, -, -, -, -, -, hno, -, hprov2, -, -⟩ :=
      claim_retire_facts st c hnd hbd hmem hav hcfc (retire_after_claim_eq st c hcfc)
    have h' := h
    simp only [attach] at h'
    rw [show 2 * st.maxSize + 2 = (2 * st.maxSize + 1) + 1 from rfl] at h'
    simp only [attachLoop, hfind, hhc, if_true, hhl, Bool.false_eq_true, if_false,
      retire_after_claim_eq st c hcfc] at h'
    by_cases hceil : st.maxSize ≤ 0 + 1
    · rw [if_pos hceil] at h'
      simp only [Prod.mk.injEq] at h'
      obtain ⟨rfl, -⟩ := h'
      exact hno
    · rw [if_neg hceil] at h'
      have F2 := attachLoop_facts beh (2 * st.maxSize + 1) (0 + 1) false
        (claimedRemoved st c.poolIndex) st' r hnd2 hbd2 h'
      intro hmemid
      obtain ⟨q, hq, hqe⟩ := mem_ids_iff.1 hmemid
      rcases F2.behKept q hq with ⟨p, hp, hpe, -, -⟩ | ⟨hfresh, -⟩
      · exact hno (mem_ids_iff.2 ⟨p, hp, hpe.trans hqe⟩)
      · have h1 := hbd c hmem
        rw [hnid2, hqe] at hfresh
        omega
  · intro e he
    rcases F.errShape e he with hsh | hsh | hsh | hsh
    · exact .inl hsh
    · obtain ⟨m, rfl⟩ := hsh
      exact .inr (by rw [F.exhaustedCeiling hmax m he])
    · obtain ⟨m, rfl⟩ := hsh
      exact absurd he (F.noCloseFailErr hcf hcfb m)
    · subst hsh
      exact absurd he (attach_no_unable beh hnd hbd hlen hincs h)

/-- Pool for the C3 witness: the first (scanned-first) connection fails its
probe, the second is healthy. -/
def w3St : PoolState :=
  ⟨[⟨1, true, none, false, ⟨false, false⟩⟩, wConn 2 true], 2, 5, 1, none, true⟩

/-- Witness for C3: on the concrete pool the unhealthy first candidate is
retired and the healthy second connection is returned. -/
theorem attach_health_check_policy_witness :
    (∀ c, (attach (fun _ => okBeh) w3St).2 = .ok c → c.beh.healthy = true) ∧
    (∀ q ∈ w3St.connections,
      q.poolIndex ∉ ids (attach (fun _ => okBeh) w3St).1 → q.beh.healthy = false) ∧
    (∀ c, w3St.connections.find? (fun x => x.available) = some c → c.beh.healthy = false →
      c.poolIndex ∉ ids (attach (fun _ => okBeh) w3St).1) ∧
    (∀ e, (attach (fun _ => okBeh) w3St).2 = .error e →
      (∃ m, e = .maxReached m) ∨ e = .healthCheckExhausted w3St.maxSize) :=
  attach_health_check_policy (fun _ => okBeh) w3St
    (attach (fun _ => okBeh) w3St).1 (attach (fun _ => okBeh) w3St).2
    (by unfold UniqueIds ids; decide) (by unfold IdsBounded; decide)
    (by decide) (by decide) (by decide) (by decide)
    (by unfold w3St; decide) (fun _ => rfl) (by rfl)

/-- C10: a failed `attach()` does not block the admission queue.  With the
queue promise fulfilled, an `attach()` call runs `_attach` on the current
pool and delivers its result — fulfilled or rejected — only to that caller,
while the stored queue promise (`result.catch(() => {})`) is fulfilled
again; hence the next `attach()` call also executes its own claim/grow
decision on the state the first call left behind, and succeeds whenever that
decision does. -/
theorem attach_rejection_does_not_block_queue (beh1 beh2 : Nat → ConnBeh)
    (qs : QueueState) (hq : qs.queue = .ok ()) :
    (attachQueued beh1 qs).1.queue = .ok () ∧
    (attachQueued beh1 qs).2 = (attach beh1 qs.pool).2 ∧
    (attachQueued beh1 qs).1.pool = (attach beh1 qs.pool).1 ∧
    attachQueued beh2 (attachQueued beh1 qs).1
      = (⟨(attach beh2 (attachQueued beh1 qs).1.pool).1, .ok ()⟩,
         (attach beh2 (attachQueued beh1 qs).1.pool).2) ∧
    (∀ c, (attach beh2 (attachQueued beh1 qs).1.pool).2 = .ok c →
      (attachQueued beh2 (attachQueued beh1 qs).1).2 = .ok c) := by
  have h1 : attachQueued beh1 qs
      = (⟨(attach beh1 qs.pool).1, .ok ()⟩, (attach beh1 qs.pool).2) := by
    simp [attachQueued, hq]
  have h2 : attachQueued beh2 (attachQueued beh1 qs).1
      = (⟨(attach beh2 (attachQueued beh1 qs).1.pool).1, .ok ()⟩,
         (attach beh2 (attachQueued beh1 qs).1.pool).2) := by
    rw [h1]
    simp [attachQueued]
  refine ⟨by rw [h1], by rw [h1], by rw [h1], h2, ?_⟩
  intro c hc
  rw [h2, hc]

/-- Queue state for the C10 witness: a saturated pool (`maxSize = 1`, its
single connection claimed), so the first attach rejects with the
pool-exhausted error; the queue stays usable. -/
def w10Qs : QueueState := ⟨⟨[wConn 1 false], 1, 1, 1, none, true⟩, .ok ()⟩

/-- Witness for C10 on the saturated one-connection pool. -/
theorem attach_rejection_does_not_block_queue_witness :
    ((attachQueued (fun _ => okBeh) w10Qs).1.queue = .ok () ∧
    (attachQueued (fun _ => okBeh) w10Qs).2 = (attach (fun _ => okBeh) w10Qs.pool).2 ∧
    (attachQueued (fun _ => okBeh) w10Qs).1.pool = (attach (fun _ => okBeh) w10Qs.pool).1 ∧
    attachQueued (fun _ => okBeh) (attachQueued (fun _ => okBeh) w10Qs).1
      = (⟨(attach (fun _ => okBeh) (attachQueued (fun _ => okBeh) w10Qs).1.pool).1, .ok ()⟩,
         (attach (fun _ => okBeh) (attachQueued (fun _ => okBeh) w10Qs).1.pool).2) ∧
    (∀ c, (attach (fun _ => okBeh) (attachQueued (fun _ => okBeh) w10Qs).1.pool).2 = .ok c →
      (attachQueued (fun _ => okBeh) (attachQueued (fun _ => okBeh) w10Qs).1).2 = .ok c)) ∧
    (attachQueued (fun _ => okBeh) w10Qs).2 = .error (.maxReached 1) :=
  ⟨attach_rejection_does_not_block_queue (fun _ => okBeh) (fun _ => okBeh) w10Qs rfl, rfl⟩

end RmPool
